import Mathlib

/-!
Verification of the semantic pipeline of the Lambda-Calculus-with-Traits
front-end (desugaring, type resolution, type checking, dispatch, evaluation).

The definitions below are a shallow embedding of the Python sources under
`src/`: `parser.py` (AST dataclasses and their custom `__eq__`/`__hash__`),
`type_solver.py`, `type_checker.py`, `dispatcher.py`, `trait.py` and
`interpreter.py`.  Every recursive traversal of the AST is written as a
fuel-indexed function (structural recursion on the fuel) so that all
definitions are executable and reduce on concrete inputs; fuel exhaustion is
reported through a dedicated error constructor and never conflated with the
errors the Python code itself raises.

Modelling conventions, applied uniformly:
* Python `dict`s that are only read through `in`/`[...]`/`.pop` are
  association lists; insertion order is preserved where iteration order
  matters (record fields).
* Source line numbers (`lineno`) are omitted: they influence only the text
  of diagnostics, never control flow.
* Error messages are embedded as symbolic constructors carrying the static
  part of the source message; the interpolated pretty-printed types and the
  `[Line n]` prefixes are dropped.
* `NamedExpr` carries an `isBuiltin : Bool` field.  `parser.py` does not
  declare that field, but `builtin.py` constructs `NamedExpr(..., is_builtin=True)`
  and `interpreter.py` reads `.is_builtin`; parser-produced nodes are
  embedded with `isBuiltin = false`.
* The Python string sentinel `TypeType = "*"` and Python `None`, both of
  which flow into type positions in the source, are embedded as the extra
  `Ty` constructors `starT` and `noneT`.
-/

/-- Literal values carried by `ValueExpr` (`value: str | int | bool`). -/
inductive Lit where
  | boolL (b : Bool)
  | intL (n : Int)
  | strL (s : String)

/-- Types, from the `Type` dataclasses of `parser.py`.  `noneT` stands for
Python `None` in a type position (e.g. the element type `ListType(None)` of
an empty list); `starT` stands for the string sentinel `TypeType = "*"`. -/
inductive Ty where
  | named (name : String)
  | arrow (left right : Ty)
  | appT (func arg : Ty)
  | listT (elemType : Ty)
  | record (fields : List (String × Ty))
  | forAll (paramName : String) (body : Ty) (traitBounds : List String)
  | noneT
  | starT

/-- Expressions, from the `Expr` dataclasses of `parser.py`.  `NamedExpr`
carries only `name`: it has no `is_builtin` field (`builtin.py` constructs
`NamedExpr(..., is_builtin=True)`, which raises `TypeError` the moment that
module is imported, and every later `node.is_builtin` read raises
`AttributeError`). -/
inductive Expr where
  | named (name : String)
  | value (v : Lit)
  | listE (elements : List Expr)
  | recordE (fields : List (String × Expr))
  | lam (paramName : String) (paramType : Option Ty) (body : Expr)
  | tlam (paramName : String) (body : Expr) (traitBounds : List String)
  | app (func arg : Expr)
  | tapp (func : Expr) (typeArg : Ty)
  | annotated (expr : Expr) (ty : Ty)
  | fieldAccess (record : Expr) (fieldName : String)
  | ifE (condition thenExpr elseExpr : Expr)
  | orE (left right : Expr)
  | andE (left right : Expr)
  | notE (expr : Expr)
  | rel (left : Expr) (op : String) (right : Expr)
  | add (left : Expr) (op : String) (right : Expr)
  | mul (left : Expr) (op : String) (right : Expr)
  | neg (expr : Expr)

/-- Statements surviving desugaring, from `parser.py`. -/
inductive Stmt where
  | assign (name : String) (expr : Expr)
  | typeAssign (name : String) (ty : Ty)
  | exprStmt (expr : Expr)
  | traitFieldEnv (fieldName traitName : String) (ty : Ty)
  | instanceEnv (name : String) (typeParam : Ty) (instExpr : Expr)

/-- Threading a state through a list, failing fast (the shape of every
visitor loop over Python lists/dicts once the mutated counter is made
explicit). -/
def mapStEx {α β σ ε : Type} (g : α → σ → Except ε (β × σ)) :
    List α → σ → Except ε (List β × σ)
  | [], s => .ok ([], s)
  | x :: r, s => do
    let (y, s1) ← g x s
    let (ys, s2) ← mapStEx g r s1
    .ok (y :: ys, s2)

/-- Association-list lookup (Python `dict` read access). -/
def alookup {β : Type} : List (String × β) → String → Option β
  | [], _ => none
  | (k, v) :: r, n => if k = n then some v else alookup r n

/-- `is_built_in_type` from `builtin.py`. -/
def isBuiltInType (n : String) : Bool :=
  n = "Bool" || n = "Int" || n = "String"

def boolTy : Ty := .named "Bool"
def intTy : Ty := .named "Int"
def stringTy : Ty := .named "String"

/-! ### Structural type equality (`parser.py` custom `__eq__` methods)

`RecordType.__eq__` compares `sorted(self.fields.items())`, so record
equality ignores declaration order; `ForAllType.__eq__` compares only
`param_name` and `body`, ignoring `trait_bounds`.  Python sorts the field
items by label (labels of a dict are distinct, so the type components never
act as tie-breakers). -/

/-- Insert into a label-sorted association list (ascending label order). -/
def insertByName {β : Type} (p : String × β) : List (String × β) → List (String × β)
  | [] => [p]
  | q :: r => if p.1 ≤ q.1 then p :: q :: r else q :: insertByName p r

/-- Sort an association list by label, as `sorted(fields.items())` does. -/
def sortByName {β : Type} : List (String × β) → List (String × β)
  | [] => []
  | p :: r => insertByName p (sortByName r)

/-- Fuel-indexed Python `==` on types. -/
def tyEqF : Nat → Ty → Ty → Bool
  | 0, _, _ => false
  | f + 1, t, u =>
    match t, u with
    | .named a, .named b => a = b
    | .arrow l r, .arrow l' r' => tyEqF f l l' && tyEqF f r r'
    | .appT a b, .appT a' b' => tyEqF f a a' && tyEqF f b b'
    | .listT e, .listT e' => tyEqF f e e'
    | .record fs, .record gs =>
      let s1 := sortByName fs
      let s2 := sortByName gs
      s1.length = s2.length &&
        (s1.zip s2).all (fun pq => pq.1.1 = pq.2.1 && tyEqF f pq.1.2 pq.2.2)
    | .forAll p b _, .forAll p' b' _ => p = p' && tyEqF f b b'
    | .noneT, .noneT => true
    | .starT, .starT => true
    | _, _ => false

/-- The data fed to `__hash__` by the `parser.py` type classes: structural
skeleton with record fields sorted (`hash(tuple(self.sorted_fields))`) and,
for `ForAllType`, only `(param_name, body)` — the trait bounds are not
hashed. -/
def tyHashRepF : Nat → Ty → Ty
  | 0, t => t
  | f + 1, t =>
    match t with
    | .named a => .named a
    | .arrow l r => .arrow (tyHashRepF f l) (tyHashRepF f r)
    | .appT a b => .appT (tyHashRepF f a) (tyHashRepF f b)
    | .listT e => .listT (tyHashRepF f e)
    | .record fs =>
      .record ((sortByName fs).map (fun p => (p.1, tyHashRepF f p.2)))
    | .forAll p b _ => .forAll p (tyHashRepF f b) []
    | .noneT => .noneT
    | .starT => .starT

/-! ### Free type variables (`_FreeVarVisitor` of `type_solver.py`)

The visitor overrides only `visit_ForAllType` (pushing the binder) and
`visit_NamedType` (collecting unbound names); all other nodes fall to the
generic child traversal.  Only membership in the resulting set is ever
consulted. -/

def tyFVF : Nat → List String → Ty → List String
  | 0, _, _ => []
  | f + 1, bound, t =>
    match t with
    | .named n => if n ∈ bound then [] else [n]
    | .arrow l r => tyFVF f bound l ++ tyFVF f bound r
    | .appT a b => tyFVF f bound a ++ tyFVF f bound b
    | .listT e => tyFVF f bound e
    | .record fs => fs.foldr (fun p acc => tyFVF f bound p.2 ++ acc) []
    | .forAll p b _ => tyFVF f (p :: bound) b
    | .noneT => []
    | .starT => []

/-- `_new_temp_name` (`f"{name}${idx}"` after incrementing the counter). -/
def freshName (base : String) (cnt : Nat) : String :=
  base ++ "$" ++ toString (cnt + 1)

/-- Errors of the resolver pass (`type_solver.py`), plus fuel exhaustion.
`noneParam` is the crash of `self.visit(None)` on a missing lambda
annotation; `pyCrash` the crash of visiting a non-dataclass (`None` or the
string sentinel) in a type position. -/
inductive RErr where
  | fuel
  | unknownType (name : String)
  | forAllExpected
  | noneParam
  | pyCrash

/-- Fuel-indexed capture-avoiding type substitution, from
`TypeSubstitutionVisitor` of `type_solver.py` (`old` is a `NamedType`; the
`ForAllType` case keeps the node, via `replace`, when the binder equals
`old`, recurses when the binder is not free in `new`, and otherwise renames
the binder to a fresh `name$N` first).  The mutated module counter is
threaded explicitly. -/
def substTyF : Nat → Nat → String → Ty → Ty → Except RErr (Ty × Nat)
  | 0, _, _, _, _ => .error .fuel
  | f + 1, c, old, new, t =>
    match t with
    | .named n => .ok (if n = old then new else .named n, c)
    | .arrow l r => do
      let (l', c1) ← substTyF f c old new l
      let (r', c2) ← substTyF f c1 old new r
      .ok (.arrow l' r', c2)
    | .appT a b => do
      let (a', c1) ← substTyF f c old new a
      let (b', c2) ← substTyF f c1 old new b
      .ok (.appT a' b', c2)
    | .listT e => do
      let (e', c1) ← substTyF f c old new e
      .ok (.listT e', c1)
    | .record fs => do
      let (fs', c1) ← mapStEx
        (fun p cc => do
          let (t', c') ← substTyF f cc old new p.2
          .ok ((p.1, t'), c')) fs c
      .ok (.record fs', c1)
    | .forAll p b bs =>
      if p = old then .ok (.forAll p b bs, c)
      else if p ∈ tyFVF f [] new then do
        let temp := freshName p c
        let (b1, c1) ← substTyF f (c + 1) p (.named temp) b
        let (b2, c2) ← substTyF f c1 old new b1
        .ok (.forAll temp b2 bs, c2)
      else do
        let (b', c1) ← substTyF f c old new b
        .ok (.forAll p b' bs, c1)
    | .noneT => .ok (.noneT, c)
    | .starT => .ok (.starT, c)

/-! ### The type resolver (`TypeSolverVisitor` of `type_solver.py`)

A `TransformVisitor`: `TypeAssignStmt` stores its resolved right-hand side
in the alias table and is dropped from the output; `NamedType` is returned
unchanged when built-in or bound, replaced by the stored alias otherwise;
`AppType` requires its resolved function to be a `ForAllType` and
substitutes; `LambdaExpr`/`TypeLambdaExpr`/`ForAllType` push their binder
onto the bound-name stack for the traversal of their children (for a
lambda, the parameter type itself is resolved with the parameter already
pushed, matching the source order `append`/`visit`/`visit`/`pop`). -/

def resolveTyF : Nat → List (String × Ty) → List String → Nat → Ty →
    Except RErr (Ty × Nat)
  | 0, _, _, _, _ => .error .fuel
  | f + 1, g, stk, c, t =>
    match t with
    | .named n =>
      if isBuiltInType n then .ok (.named n, c)
      else if n ∈ stk then .ok (.named n, c)
      else
        match alookup g n with
        | some t' => .ok (t', c)
        | none => .error (.unknownType n)
    | .arrow l r => do
      let (l', c1) ← resolveTyF f g stk c l
      let (r', c2) ← resolveTyF f g stk c1 r
      .ok (.arrow l' r', c2)
    | .appT a b => do
      let (fa, c1) ← resolveTyF f g stk c a
      let (ab, c2) ← resolveTyF f g stk c1 b
      match fa with
      | .forAll p body _ => substTyF f c2 p ab body
      | _ => .error .forAllExpected
    | .listT e => do
      let (e', c1) ← resolveTyF f g stk c e
      .ok (.listT e', c1)
    | .record fs => do
      let (fs', c1) ← mapStEx
        (fun p cc => do
          let (t', c') ← resolveTyF f g stk cc p.2
          .ok ((p.1, t'), c')) fs c
      .ok (.record fs', c1)
    | .forAll p b bs => do
      let (b', c1) ← resolveTyF f g (p :: stk) c b
      .ok (.forAll p b' bs, c1)
    | .noneT => .error .pyCrash
    | .starT => .error .pyCrash

def resolveExprF : Nat → List (String × Ty) → List String → Nat → Expr →
    Except RErr (Expr × Nat)
  | 0, _, _, _, _ => .error .fuel
  | f + 1, g, stk, c, e =>
    match e with
    | .named n => .ok (.named n, c)
    | .value v => .ok (.value v, c)
    | .listE es => do
      let (es', c1) ← mapStEx (fun x cc => resolveExprF f g stk cc x) es c
      .ok (.listE es', c1)
    | .recordE fs => do
      let (fs', c1) ← mapStEx
        (fun p cc => do
          let (x', c') ← resolveExprF f g stk cc p.2
          .ok ((p.1, x'), c')) fs c
      .ok (.recordE fs', c1)
    | .lam p pt body =>
      -- visit_LambdaExpr: push the parameter, resolve the annotation, then
      -- the body.  A missing annotation (`None`) crashes the Python visitor.
      match pt with
      | none => .error .noneParam
      | some pt0 => do
        let (pt', c1) ← resolveTyF f g (p :: stk) c pt0
        let (body', c2) ← resolveExprF f g (p :: stk) c1 body
        .ok (.lam p (some pt') body', c2)
    | .tlam p body bs => do
      let (body', c1) ← resolveExprF f g (p :: stk) c body
      .ok (.tlam p body' bs, c1)
    | .app a b => do
      let (a', c1) ← resolveExprF f g stk c a
      let (b', c2) ← resolveExprF f g stk c1 b
      .ok (.app a' b', c2)
    | .tapp a ta => do
      let (a', c1) ← resolveExprF f g stk c a
      let (ta', c2) ← resolveTyF f g stk c1 ta
      .ok (.tapp a' ta', c2)
    | .annotated a ta => do
      let (a', c1) ← resolveExprF f g stk c a
      let (ta', c2) ← resolveTyF f g stk c1 ta
      .ok (.annotated a' ta', c2)
    | .fieldAccess r n => do
      let (r', c1) ← resolveExprF f g stk c r
      .ok (.fieldAccess r' n, c1)
    | .ifE a b d => do
      let (a', c1) ← resolveExprF f g stk c a
      let (b', c2) ← resolveExprF f g stk c1 b
      let (d', c3) ← resolveExprF f g stk c2 d
      .ok (.ifE a' b' d', c3)
    | .orE a b => do
      let (a', c1) ← resolveExprF f g stk c a
      let (b', c2) ← resolveExprF f g stk c1 b
      .ok (.orE a' b', c2)
    | .andE a b => do
      let (a', c1) ← resolveExprF f g stk c a
      let (b', c2) ← resolveExprF f g stk c1 b
      .ok (.andE a' b', c2)
    | .notE a => do
      let (a', c1) ← resolveExprF f g stk c a
      .ok (.notE a', c1)
    | .rel a op b => do
      let (a', c1) ← resolveExprF f g stk c a
      let (b', c2) ← resolveExprF f g stk c1 b
      .ok (.rel a' op b', c2)
    | .add a op b => do
      let (a', c1) ← resolveExprF f g stk c a
      let (b', c2) ← resolveExprF f g stk c1 b
      .ok (.add a' op b', c2)
    | .mul a op b => do
      let (a', c1) ← resolveExprF f g stk c a
      let (b', c2) ← resolveExprF f g stk c1 b
      .ok (.mul a' op b', c2)
    | .neg a => do
      let (a', c1) ← resolveExprF f g stk c a
      .ok (.neg a', c1)

/-- One statement of the resolver pass.  Returns the surviving statement (a
`TypeAssignStmt` is consumed into the alias table and dropped) together
with the updated alias table and counter. -/
def resolveStmtF (f : Nat) (g : List (String × Ty)) (c : Nat) :
    Stmt → Except RErr (Option Stmt × List (String × Ty) × Nat)
  | .typeAssign n t => do
    let (t', c1) ← resolveTyF f g [] c t
    .ok (none, (n, t') :: g, c1)
  | .assign n e => do
    let (e', c1) ← resolveExprF f g [] c e
    .ok (some (.assign n e'), g, c1)
  | .exprStmt e => do
    let (e', c1) ← resolveExprF f g [] c e
    .ok (some (.exprStmt e'), g, c1)
  | .traitFieldEnv fn tn t => do
    let (t', c1) ← resolveTyF f g [] c t
    .ok (some (.traitFieldEnv fn tn t'), g, c1)
  | .instanceEnv n tp ie => do
    let (tp', c1) ← resolveTyF f g [] c tp
    let (ie', c2) ← resolveExprF f g [] c1 ie
    .ok (some (.instanceEnv n tp' ie'), g, c2)

/-- The alias table is a prepend-list, so lookups see the latest store for a
name, matching `self.global_var_dict[node.name] = ...` overwrite
semantics. -/
def resolveProgAuxF (f : Nat) : List (String × Ty) → Nat → List Stmt →
    Except RErr (List Stmt × Nat)
  | _, c, [] => .ok ([], c)
  | g, c, st :: rest => do
    let (out, g1, c1) ← resolveStmtF f g c st
    let (outs, c2) ← resolveProgAuxF f g1 c1 rest
    match out with
    | some s => .ok (s :: outs, c2)
    | none => .ok (outs, c2)

/-- A full resolver run: fresh visitor state (empty alias table), as
`main.py` constructs `TypeSolverVisitor()` once per pipeline. -/
def resolveProgF (f : Nat) (c : Nat) (stmts : List Stmt) :
    Except RErr (List Stmt × Nat) :=
  resolveProgAuxF f [] c stmts

/-! ### The type checker (`TypeCheckerVisitor` of `type_checker.py`)

The checker environment `Env` stores either a type or the string sentinel
`"*"` (`TypeType`).  The chain of lexical frames with first-hit lookup is
embedded as a single association list extended on binder entry: `get` walks
frames innermost-first, which coincides with first-match lookup on the
prepend list. -/

/-- An environment entry: a type, or the `"*"` sentinel bound to type
parameters. -/
inductive EnvVal where
  | ty (t : Ty)
  | star

/-- Checker diagnostics (static message parts of the source `TypeError`s),
plus the Python-level crashes this snapshot can raise and fuel
exhaustion. -/
inductive TCErr where
  | fuel
  | expectedBool
  | expectedInt
  | branchMismatch
  | relMismatch
  | expectedRecord
  | unknownField (name : String)
  | arrowExpected
  | argMismatch
  | forAllExpected
  | annotatedMismatch
  | isATypeNotAVariable (name : String)
  | unboundVariable (name : String)
  | unknownType (name : String)
  | forAllCtorCrash
  | noneCrash

/-- `_TypeGetterVisitor.visit`.  The `visit_ForAllType` method ends in
`ForAllType(node.param_name, type)` — the dataclass requires a third
positional `trait_bounds` argument, so this call raises a Python
`TypeError`; it is embedded as the `forAllCtorCrash` diagnostic.  There is
no `visit_AppType` method, so an `AppType` falls to the read-only
`generic_visit`, which visits the children (their errors still surface) and
returns Python `None`. -/
def typeGetterF : Nat → List (String × Ty) → List String → Ty →
    Except TCErr Ty
  | 0, _, _, _ => .error .fuel
  | f + 1, g, stk, t =>
    match t with
    | .named n =>
      if isBuiltInType n then .ok (.named n)
      else if n ∈ stk then .ok (.named n)
      else
        match alookup g n with
        | some t' => .ok t'
        | none => .error (.unknownType n)
    | .arrow l r => do
      let l' ← typeGetterF f g stk l
      let r' ← typeGetterF f g stk r
      .ok (.arrow l' r')
    | .appT a b => do
      let _ ← typeGetterF f g stk a
      let _ ← typeGetterF f g stk b
      .ok .noneT
    | .listT e => do
      let e' ← typeGetterF f g stk e
      .ok (.listT e')
    | .record fs => do
      let (fs', _) ← mapStEx
        (fun p (u : Unit) => do
          let t' ← typeGetterF f g stk p.2
          .ok ((p.1, t'), u)) fs ()
      .ok (.record fs')
    | .forAll p b _ => do
      let _ ← typeGetterF f g (p :: stk) b
      .error .forAllCtorCrash
    | .noneT => .error .noneCrash
    | .starT => .error .noneCrash

/-- `_TypeSubstitutionVisitor` of `type_checker.py`.  Unlike the resolver
version, every branch of its `visit_ForAllType` that does not return the
node unchanged constructs `ForAllType` with two positional arguments and
therefore crashes. -/
def checkerSubstTyF : Nat → String → Ty → Ty → Except TCErr Ty
  | 0, _, _, _ => .error .fuel
  | f + 1, old, new, t =>
    match t with
    | .named n => .ok (if n = old then new else .named n)
    | .arrow l r => do
      let l' ← checkerSubstTyF f old new l
      let r' ← checkerSubstTyF f old new r
      .ok (.arrow l' r')
    | .appT a b => do
      let a' ← checkerSubstTyF f old new a
      let b' ← checkerSubstTyF f old new b
      .ok (.appT a' b')
    | .listT e => do
      let e' ← checkerSubstTyF f old new e
      .ok (.listT e')
    | .record fs => do
      let (fs', _) ← mapStEx
        (fun p (u : Unit) => do
          let t' ← checkerSubstTyF f old new p.2
          .ok ((p.1, t'), u)) fs ()
      .ok (.record fs')
    | .forAll p b bs =>
      if p = old then .ok (.forAll p b bs)
      else .error .forAllCtorCrash
    | .noneT => .ok .noneT
    | .starT => .ok .starT

/-- Python `==` between the checker sentinel comparison partners: an
environment value is the string `"*"` or a type; `type == TypeType`
compares a `Type` object with a string and is `False`. -/
def envValIsStar : EnvVal → Bool
  | .star => true
  | .ty _ => false

/-- The expression part of `TypeCheckerVisitor`.  `tg`/`tstk` are the state
of the embedded `_TypeGetterVisitor` (global alias dict and bound-variable
stack) and `env` the lexical environment.  `visit_TypeLambdaExpr` ends in
`ForAllType(node.param_name, body_type)`, again a two-argument call of the
three-argument dataclass, embedded as `forAllCtorCrash` after the body has
been checked.  `visit_TypeAppExpr` checks only that the function has a
`ForAllType` type; it consults no instance table and performs no
trait-bound check before substituting. -/
def typeCheckF : Nat → List (String × Ty) → List String →
    List (String × EnvVal) → Expr → Except TCErr Ty
  | 0, _, _, _, _ => .error .fuel
  | f + 1, tg, tstk, env, e =>
    match e with
    | .named n =>
      match alookup env n with
      | some v =>
        if envValIsStar v then .error (.isATypeNotAVariable n)
        else match v with
          | .ty t => .ok t
          | .star => .error (.isATypeNotAVariable n)
      | none => .error (.unboundVariable n)
    | .value (.boolL _) => .ok boolTy
    | .value (.intL _) => .ok intTy
    | .value (.strL _) => .ok stringTy
    | .listE [] => .ok (.listT .noneT)
    | .listE (x :: rest) => do
      let firstTy ← typeCheckF f tg tstk env x
      let _ ← mapStEx
        (fun y (u : Unit) => do
          let yTy ← typeCheckF f tg tstk env y
          if tyEqF f firstTy yTy then .ok ((), u)
          else .error TCErr.branchMismatch) rest ()
      .ok (.listT firstTy)
    | .recordE fs => do
      let (fs', _) ← mapStEx
        (fun p (u : Unit) => do
          let t' ← typeCheckF f tg tstk env p.2
          .ok ((p.1, t'), u)) fs ()
      .ok (.record fs')
    | .lam p pt body => do
      let pty ←
        match pt with
        | none => .error TCErr.noneCrash
        | some pt0 => typeGetterF f tg tstk pt0
      let bodyTy ← typeCheckF f tg tstk ((p, .ty pty) :: env) body
      .ok (.arrow pty bodyTy)
    | .tlam p body _ => do
      let _ ← typeCheckF f tg (p :: tstk) ((p, .star) :: env) body
      .error .forAllCtorCrash
    | .app a b => do
      let funcTy ← typeCheckF f tg tstk env a
      let argTy ← typeCheckF f tg tstk env b
      match funcTy with
      | .arrow l r => if tyEqF f l argTy then .ok r else .error .argMismatch
      | _ => .error .arrowExpected
    | .tapp a ta => do
      let funcTy ← typeCheckF f tg tstk env a
      let typeArg ← typeGetterF f tg tstk ta
      match funcTy with
      | .forAll p body _ => checkerSubstTyF f p typeArg body
      | _ => .error .forAllExpected
    | .annotated a ta => do
      let exprTy ← typeCheckF f tg tstk env a
      let annTy ← typeGetterF f tg tstk ta
      if tyEqF f exprTy annTy then .ok exprTy else .error .annotatedMismatch
    | .fieldAccess r n => do
      let recTy ← typeCheckF f tg tstk env r
      match recTy with
      | .record fs =>
        match alookup fs n with
        | some t => .ok t
        | none => .error (.unknownField n)
      | _ => .error .expectedRecord
    | .ifE c a b => do
      let condTy ← typeCheckF f tg tstk env c
      let thenTy ← typeCheckF f tg tstk env a
      let elseTy ← typeCheckF f tg tstk env b
      if !tyEqF f condTy boolTy then .error .expectedBool
      else if !tyEqF f thenTy elseTy then .error .branchMismatch
      else .ok thenTy
    | .orE a b => do
      let lTy ← typeCheckF f tg tstk env a
      let rTy ← typeCheckF f tg tstk env b
      if !tyEqF f lTy boolTy || !tyEqF f rTy boolTy then .error .expectedBool
      else .ok boolTy
    | .andE a b => do
      let lTy ← typeCheckF f tg tstk env a
      let rTy ← typeCheckF f tg tstk env b
      if !tyEqF f lTy boolTy || !tyEqF f rTy boolTy then .error .expectedBool
      else .ok boolTy
    | .notE a => do
      let t ← typeCheckF f tg tstk env a
      if !tyEqF f t boolTy then .error .expectedBool else .ok boolTy
    | .rel a op b => do
      let lTy ← typeCheckF f tg tstk env a
      let rTy ← typeCheckF f tg tstk env b
      if op = "==" || op = "!=" then
        if !tyEqF f lTy rTy then .error .relMismatch else .ok boolTy
      else
        if !tyEqF f lTy intTy || !tyEqF f rTy intTy then .error .expectedInt
        else .ok boolTy
    | .add a _ b => do
      let lTy ← typeCheckF f tg tstk env a
      let rTy ← typeCheckF f tg tstk env b
      if !tyEqF f lTy intTy || !tyEqF f rTy intTy then .error .expectedInt
      else .ok intTy
    | .mul a _ b => do
      let lTy ← typeCheckF f tg tstk env a
      let rTy ← typeCheckF f tg tstk env b
      if !tyEqF f lTy intTy || !tyEqF f rTy intTy then .error .expectedInt
      else .ok intTy
    | .neg a => do
      let t ← typeCheckF f tg tstk env a
      if !tyEqF f t intTy then .error .expectedInt else .ok intTy

/-! ### The dispatch pass (`DispatcherVisitor` of `dispatcher.py`)

State: `which_trait : field-name → trait-name` and
`get_inst : (trait-name, type) → dict-expr`, plus the `_tmp_idx` counter.
Python `dict` deletion/insertion: `pop` removes the entry, assignment
overwrites in place when an equal key exists and appends otherwise; `dict`
key equality on `(trait, type)` pairs uses the custom type `__eq__`
(`tyEqF`). -/

/-- Remove the entry of a key (`dict.pop` removes the unique entry; on the
association list every binding of the key is dropped). -/
def wtErase : List (String × String) → String → List (String × String)
  | [], _ => []
  | p :: r, k => if p.1 = k then wtErase r k else p :: wtErase r k

/-- Overwrite the first binding of a key in place (`dict` assignment keeps
the insertion position of an existing key). -/
def wtUpdate : List (String × String) → String → String → List (String × String)
  | [], _, _ => []
  | p :: r, k, v => if p.1 = k then (k, v) :: r else p :: wtUpdate r k v

/-- `which_trait.pop(name, None)`: the popped value and the remaining
table. -/
def wtPop (wt : List (String × String)) (k : String) :
    Option String × List (String × String) :=
  (alookup wt k, wtErase wt k)

/-- `which_trait[k] = v`: update in place when present, append when new. -/
def wtInsert (wt : List (String × String)) (k v : String) :
    List (String × String) :=
  if (alookup wt k).isSome then wtUpdate wt k v
  else wt ++ [(k, v)]

/-- Python truthiness of `dict.pop(name, None)`: `None` and the empty
string are falsy, so `if popped:` restores only a non-empty name. -/
def wtRestore (wt : List (String × String)) (k : String) :
    Option String → List (String × String)
  | some v => if v = "" then wt else wtInsert wt k v
  | none => wt

/-- `get_inst` lookup: first entry whose key is `==`-equal (trait names by
string equality, types by the custom structural equality). -/
def giLookup (f : Nat) (gi : List ((String × Ty) × Expr)) (tr : String)
    (t : Ty) : Option Expr :=
  match gi.find? (fun q => q.1.1 = tr && tyEqF f q.1.2 t) with
  | some q => some q.2
  | none => none

/-- `get_inst[(tr, t)] = e`. -/
def giInsert (f : Nat) (gi : List ((String × Ty) × Expr)) (tr : String)
    (t : Ty) (e : Expr) : List ((String × Ty) × Expr) :=
  if (gi.find? (fun q => q.1.1 = tr && tyEqF f q.1.2 t)).isSome then
    gi.map (fun q => if q.1.1 = tr && tyEqF f q.1.2 t then (q.1, e) else q)
  else gi ++ [((tr, t), e)]

/-- Dispatcher diagnostics.  `checkedTypeCrash` is the Python
`AttributeError` raised by `node.func.checked_type` in
`visit_TypeAppExpr`: no class of `parser.py` declares a `checked_type`
attribute and nothing assigns one, so every `TypeApp` whose function is not
a `which_trait` accessor reaches that attribute access and crashes.
`missingInstance` is the `KeyError` of `self.get_inst[(trait, type)]`. -/
inductive DErr where
  | fuel
  | unsolvedAccessor (name : String)
  | missingInstance
  | checkedTypeCrash

/-- `temp_name`: increment `_tmp_idx`, then `f"{prefix}_{idx}"`. -/
def dispTempName (prefixStr : String) (c : Nat) : String :=
  prefixStr ++ "_" ++ toString (c + 1)

/-- The dispatcher state threaded through a traversal. -/
structure DState where
  wt : List (String × String)
  gi : List ((String × Ty) × Expr)
  cnt : Nat

/-- Wrap a type-lambda body in one dictionary-parameter lambda per trait
bound, registering each parameter in `get_inst` keyed by
`(trait, NamedType(param))`; the loop follows the source order, so the
first bound ends up innermost.  The wrapper `LambdaExpr` receives
`param_type=TypeType`, i.e. the string `"*"`. -/
def wrapDictParams (f : Nat) (p : String) :
    List String → Expr → DState → Expr × DState
  | [], body, st => (body, st)
  | tr :: rest, body, st =>
    let nm := dispTempName ("__dictp_" ++ tr) st.cnt
    let st1 : DState :=
      { st with
        gi := giInsert f st.gi tr (.named p) (.named nm)
        cnt := st.cnt + 1 }
    wrapDictParams f p rest (.lam nm (some .starT) body) st1

def dispatchExprF : Nat → DState → Expr → Except DErr (Expr × DState)
  | 0, _, _ => .error .fuel
  | f + 1, st, e =>
    match e with
    | .named n =>
      if (alookup st.wt n).isSome then .error (.unsolvedAccessor n)
      else .ok (.named n, st)
    | .value v => .ok (.value v, st)
    | .listE es => do
      let (es', st1) ← mapStEx (fun x s => dispatchExprF f s x) es st
      .ok (.listE es', st1)
    | .recordE fs => do
      let (fs', st1) ← mapStEx
        (fun p s => do
          let (x', s') ← dispatchExprF f s p.2
          .ok ((p.1, x'), s')) fs st
      .ok (.recordE fs', st1)
    | .lam p pt body => do
      let (popped, wt1) := wtPop st.wt p
      let (body', st1) ← dispatchExprF f { st with wt := wt1 } body
      .ok (.lam p pt body', { st1 with wt := wtRestore st1.wt p popped })
    | .tlam p body bounds =>
      if bounds = [] then do
        let (popped, wt1) := wtPop st.wt p
        let (body', st1) ← dispatchExprF f { st with wt := wt1 } body
        .ok (.tlam p body' bounds, { st1 with wt := wtRestore st1.wt p popped })
      else do
        let (popped, wt1) := wtPop st.wt p
        let (wrapped, st1) := wrapDictParams f p bounds body { st with wt := wt1 }
        let (body', st2) ← dispatchExprF f st1 wrapped
        .ok (.tlam p body' bounds, { st2 with wt := wtRestore st2.wt p popped })
    | .app a b => do
      let (a', st1) ← dispatchExprF f st a
      let (b', st2) ← dispatchExprF f st1 b
      .ok (.app a' b', st2)
    | .tapp a ta =>
      match a with
      | .named n =>
        match alookup st.wt n with
        | some trait =>
          match giLookup f st.gi trait ta with
          | some inst => .ok (.fieldAccess inst n, st)
          | none => .error .missingInstance
        | none => .error .checkedTypeCrash
      | _ => .error .checkedTypeCrash
    | .annotated a ta => do
      let (a', st1) ← dispatchExprF f st a
      .ok (.annotated a' ta, st1)
    | .fieldAccess r n => do
      let (r', st1) ← dispatchExprF f st r
      .ok (.fieldAccess r' n, st1)
    | .ifE c a b => do
      let (c', st1) ← dispatchExprF f st c
      let (a', st2) ← dispatchExprF f st1 a
      let (b', st3) ← dispatchExprF f st2 b
      .ok (.ifE c' a' b', st3)
    | .orE a b => do
      let (a', st1) ← dispatchExprF f st a
      let (b', st2) ← dispatchExprF f st1 b
      .ok (.orE a' b', st2)
    | .andE a b => do
      let (a', st1) ← dispatchExprF f st a
      let (b', st2) ← dispatchExprF f st1 b
      .ok (.andE a' b', st2)
    | .notE a => do
      let (a', st1) ← dispatchExprF f st a
      .ok (.notE a', st1)
    | .rel a op b => do
      let (a', st1) ← dispatchExprF f st a
      let (b', st2) ← dispatchExprF f st1 b
      .ok (.rel a' op b', st2)
    | .add a op b => do
      let (a', st1) ← dispatchExprF f st a
      let (b', st2) ← dispatchExprF f st1 b
      .ok (.add a' op b', st2)
    | .mul a op b => do
      let (a', st1) ← dispatchExprF f st a
      let (b', st2) ← dispatchExprF f st1 b
      .ok (.mul a' op b', st2)
    | .neg a => do
      let (a', st1) ← dispatchExprF f st a
      .ok (.neg a', st1)

/-- Statement dispatch.  `visit_AssignStmt` pops the assigned name from
`which_trait` and — unlike the two lambda visitors — never restores it. -/
def dispatchStmtF (f : Nat) (st : DState) :
    Stmt → Except DErr (Stmt × DState)
  | .assign n e => do
    let (_, wt1) := wtPop st.wt n
    let (e', st1) ← dispatchExprF f { st with wt := wt1 } e
    .ok (.assign n e', st1)
  | .typeAssign n t => .ok (.typeAssign n t, st)
  | .exprStmt e => do
    let (e', st1) ← dispatchExprF f st e
    .ok (.exprStmt e', st1)
  | .traitFieldEnv fn tn t =>
    .ok (.traitFieldEnv fn tn t, { st with wt := wtInsert st.wt fn tn })
  | .instanceEnv n tp ie =>
    .ok (.instanceEnv n tp ie, { st with gi := giInsert f st.gi n tp ie })

/-! ### The evaluator (`InterpreterVisitor` of `interpreter.py`)

Substitution-based call-by-value tree reduction.  The visitor keeps a
`bounded_var_names` stack, but `visit_LambdaExpr` pushes and pops the
parameter around code that never visits the body, so the stack is empty
whenever `visit_NamedExpr` consults it; the embedding therefore drops it.
`_error` is `def _error(self, msg)`, a one-parameter method: its correct
one-argument call sites raise the formatted `ValueError` runtime error,
while the two-argument calls `self._error(node, msg)` in `visit_RelExpr`,
`visit_AddExpr` and `visit_MulExpr` raise a Python `TypeError` about the
argument count, so those branches never produce their message strings.
Because `NamedExpr` has no `is_builtin` field, the attribute reads at
`visit_NamedExpr` (an unbound name) and `visit_AppExpr` (a `NamedExpr`
callee) raise `AttributeError`; every builtin branch behind them —
`read`/`cons`, `print`/`println`, `string_to_int`/`int_to_string`,
`head`/`tail` — and the final one-argument `Var not found` call are
unreachable.  The stdin list in the evaluator state models the `input()`
stream; the only branch reading it sits behind the `is_builtin` read, so
evaluation threads it unchanged. -/

/-- Evaluator failures: `runtime` for one-argument `_error` calls (the
formatted `ValueError`; in this snapshot every such call site sits behind
an `is_builtin` attribute crash, so the constructor is never produced),
`pytype` for Python-level crashes (`TypeError` from mis-aritied `_error`
calls, `AttributeError` from `is_builtin` reads, `TypeError` on malformed
operands), `fuel` for exhaustion of the step budget. -/
inductive EErr where
  | fuel
  | runtime (msg : String)
  | pytype

/-- `_FreeVarVisitor` of `interpreter.py`: identical to the type-level one —
it overrides only `visit_ForAllType` and `visit_NamedType`.  Applied to a
term, the generic traversal reaches `NamedType` nodes only inside the types
embedded in the term, so no term variable is ever collected. -/
def termFVF : Nat → List String → Expr → List String
  | 0, _, _ => []
  | f + 1, bound, e =>
    match e with
    | .named _ => []
    | .value _ => []
    | .listE es => es.foldr (fun x acc => termFVF f bound x ++ acc) []
    | .recordE fs => fs.foldr (fun p acc => termFVF f bound p.2 ++ acc) []
    | .lam _ pt body =>
      (match pt with
       | some t => tyFVF f bound t
       | none => []) ++ termFVF f bound body
    | .tlam _ body _ => termFVF f bound body
    | .app a b => termFVF f bound a ++ termFVF f bound b
    | .tapp a ta => termFVF f bound a ++ tyFVF f bound ta
    | .annotated a ta => termFVF f bound a ++ tyFVF f bound ta
    | .fieldAccess r _ => termFVF f bound r
    | .ifE c a b => termFVF f bound c ++ termFVF f bound a ++ termFVF f bound b
    | .orE a b => termFVF f bound a ++ termFVF f bound b
    | .andE a b => termFVF f bound a ++ termFVF f bound b
    | .notE a => termFVF f bound a
    | .rel a _ b => termFVF f bound a ++ termFVF f bound b
    | .add a _ b => termFVF f bound a ++ termFVF f bound b
    | .mul a _ b => termFVF f bound a ++ termFVF f bound b
    | .neg a => termFVF f bound a

/-- `_TermSubstitutionVisitor` of `interpreter.py` (`old` is a
`NamedExpr`).  `visit_LambdaExpr` keeps the node when the parameter equals
`old`, rebuilds with the parameter type erased to `None` when the parameter
is not in `_FreeVarVisitor().visit(new)`, and otherwise renames the
parameter to a fresh `name$N` before substituting; every other node kind
falls to the generic structural rebuild (in particular `TypeLambdaExpr`
binders are not consulted). -/
def termSubstF : Nat → Nat → String → Expr → Expr → Except EErr (Expr × Nat)
  | 0, _, _, _, _ => .error .fuel
  | f + 1, c, old, new, e =>
    match e with
    | .named n => .ok (if n = old then new else .named n, c)
    | .value v => .ok (.value v, c)
    | .listE es => do
      let (es', c1) ← mapStEx (fun x cc => termSubstF f cc old new x) es c
      .ok (.listE es', c1)
    | .recordE fs => do
      let (fs', c1) ← mapStEx
        (fun p cc => do
          let (x', c') ← termSubstF f cc old new p.2
          .ok ((p.1, x'), c')) fs c
      .ok (.recordE fs', c1)
    | .lam p pt body =>
      if p = old then .ok (.lam p pt body, c)
      else if p ∈ termFVF f [] new then do
        let temp := freshName p c
        let (b1, c1) ← termSubstF f (c + 1) p (.named temp) body
        let (b2, c2) ← termSubstF f c1 old new b1
        .ok (.lam temp none b2, c2)
      else do
        let (b', c1) ← termSubstF f c old new body
        .ok (.lam p none b', c1)
    | .tlam p body bs => do
      let (b', c1) ← termSubstF f c old new body
      .ok (.tlam p b' bs, c1)
    | .app a b => do
      let (a', c1) ← termSubstF f c old new a
      let (b', c2) ← termSubstF f c1 old new b
      .ok (.app a' b', c2)
    | .tapp a ta => do
      let (a', c1) ← termSubstF f c old new a
      .ok (.tapp a' ta, c1)
    | .annotated a ta => do
      let (a', c1) ← termSubstF f c old new a
      .ok (.annotated a' ta, c1)
    | .fieldAccess r n => do
      let (r', c1) ← termSubstF f c old new r
      .ok (.fieldAccess r' n, c1)
    | .ifE cond a b => do
      let (cond', c1) ← termSubstF f c old new cond
      let (a', c2) ← termSubstF f c1 old new a
      let (b', c3) ← termSubstF f c2 old new b
      .ok (.ifE cond' a' b', c3)
    | .orE a b => do
      let (a', c1) ← termSubstF f c old new a
      let (b', c2) ← termSubstF f c1 old new b
      .ok (.orE a' b', c2)
    | .andE a b => do
      let (a', c1) ← termSubstF f c old new a
      let (b', c2) ← termSubstF f c1 old new b
      .ok (.andE a' b', c2)
    | .notE a => do
      let (a', c1) ← termSubstF f c old new a
      .ok (.notE a', c1)
    | .rel a op b => do
      let (a', c1) ← termSubstF f c old new a
      let (b', c2) ← termSubstF f c1 old new b
      .ok (.rel a' op b', c2)
    | .add a op b => do
      let (a', c1) ← termSubstF f c old new a
      let (b', c2) ← termSubstF f c1 old new b
      .ok (.add a' op b', c2)
    | .mul a op b => do
      let (a', c1) ← termSubstF f c old new a
      let (b', c2) ← termSubstF f c1 old new b
      .ok (.mul a' op b', c2)
    | .neg a => do
      let (a', c1) ← termSubstF f c old new a
      .ok (.neg a', c1)

/-- `_is_true`: the evaluated node is a `ValueExpr` whose value `is True`
(identity, so the integer `1` does not qualify). -/
def isTrueV : Expr → Bool
  | .value (.boolL true) => true
  | _ => false

/-- `_is_false`. -/
def isFalseV : Expr → Bool
  | .value (.boolL false) => true
  | _ => false

/-- `_is_val`. -/
def isVal : Expr → Bool
  | .value _ => true
  | _ => false

/-- Numeric view of a Python value: `bool` is an `int` subtype, so `True`
participates in arithmetic and comparisons as `1`. -/
def toNum : Lit → Option Int
  | .intL n => some n
  | .boolL b => some (if b then 1 else 0)
  | .strL _ => none

/-- Python `==` on the literal payloads (`True == 1` holds; a string never
equals a number). -/
def pyEqLit (a b : Lit) : Bool :=
  match toNum a, toNum b with
  | some x, some y => x = y
  | _, _ =>
    match a, b with
    | .strL s, .strL t => s = t
    | _, _ => false

/-- Python `<` on the literal payloads: numbers compare numerically,
strings lexicographically, and a mixed comparison raises `TypeError`. -/
def pyLtLit (a b : Lit) : Except EErr Bool :=
  match toNum a, toNum b with
  | some x, some y => .ok (x < y)
  | _, _ =>
    match a, b with
    | .strL s, .strL t => .ok (decide (s < t))
    | _, _ => .error .pytype

/-- `visit_RelExpr` on two evaluated `ValueExpr` operands.  The
unknown-operator arm calls `self._error(node, ...)` with two arguments
against the one-parameter `_error`, a Python `TypeError`. -/
def pyRelOp (op : String) (a b : Lit) : Except EErr Lit :=
  if op = "==" then .ok (.boolL (pyEqLit a b))
  else if op = "!=" then .ok (.boolL (!pyEqLit a b))
  else if op = ">" then do
    let lt ← pyLtLit b a
    .ok (.boolL lt)
  else if op = ">=" then do
    let lt ← pyLtLit a b
    .ok (.boolL (!lt))
  else if op = "<" then do
    let lt ← pyLtLit a b
    .ok (.boolL lt)
  else if op = "<=" then do
    let lt ← pyLtLit b a
    .ok (.boolL (!lt))
  else .error .pytype

/-- `str * int` repetition (non-positive counts give the empty string). -/
def strRepeat (s : String) (n : Int) : String :=
  String.join (List.replicate n.toNat s)

/-- `visit_AddExpr` value arithmetic (`+`). -/
def pyAddLit (a b : Lit) : Except EErr Lit :=
  match toNum a, toNum b with
  | some x, some y => .ok (.intL (x + y))
  | _, _ =>
    match a, b with
    | .strL s, .strL t => .ok (.strL (s ++ t))
    | _, _ => .error .pytype

/-- `visit_AddExpr` value arithmetic (`-`). -/
def pySubLit (a b : Lit) : Except EErr Lit :=
  match toNum a, toNum b with
  | some x, some y => .ok (.intL (x - y))
  | _, _ => .error .pytype

/-- `visit_MulExpr` on two evaluated `ValueExpr` operands.  Python `//` is
floor division and `%` floor modulus; the divisor-zero test compares
`right_eval.value == 0`, which a string never satisfies.  When the test
fires — and in the unknown-operator arm — the source calls
`self._error(node, ...)` with two arguments against the one-parameter
`_error`, raising a Python `TypeError` instead of the runtime error
"Division by zero" the call intends. -/
def pyMulOp (op : String) (a b : Lit) : Except EErr Lit :=
  if op = "*" then
    match toNum a, toNum b with
    | some x, some y => .ok (.intL (x * y))
    | _, _ =>
      match a, b with
      | .strL s, .intL n => .ok (.strL (strRepeat s n))
      | .strL s, .boolL bb => .ok (.strL (strRepeat s (if bb then 1 else 0)))
      | .intL n, .strL s => .ok (.strL (strRepeat s n))
      | .boolL bb, .strL s => .ok (.strL (strRepeat s (if bb then 1 else 0)))
      | _, _ => .error .pytype
  else if op = "/" then
    if toNum b = some 0 then .error .pytype
    else
      match toNum a, toNum b with
      | some x, some y => .ok (.intL (Int.fdiv x y))
      | _, _ => .error .pytype
  else if op = "%" then
    if toNum b = some 0 then .error .pytype
    else
      match toNum a, toNum b with
      | some x, some y => .ok (.intL (Int.fmod x y))
      | _, _ => .error .pytype
  else .error .pytype

/-- `visit_NegExpr` on an evaluated `ValueExpr`. -/
def pyNegLit (a : Lit) : Except EErr Lit :=
  match toNum a with
  | some x => .ok (.intL (-x))
  | none => .error .pytype

/-- The evaluator.  `g` is `global_var_dict` (top-level values), `stdin`
the remaining input lines, `c` the fresh-name counter of the interpreter
module.  All fuel-consuming recursion mirrors `self.visit(...)` calls.
`visit_NamedExpr` tests the always-empty `bounded_var_names`, then
`global_var_dict`, then reads `node.is_builtin` — an attribute `NamedExpr`
does not have, so an unbound name raises `AttributeError` (and the
`read`/`cons` branches and the final `Var not found` error behind that
read are unreachable). -/
def evalF : Nat → List (String × Expr) → List String → Nat → Expr →
    Except EErr (Expr × List String × Nat)
  | 0, _, _, _, _ => .error .fuel
  | f + 1, g, stdin, c, e =>
    match e with
    | .named n =>
      match alookup g n with
      | some v => .ok (v, stdin, c)
      | none => .error .pytype
    | .value v => .ok (.value v, stdin, c)
    | .listE es => do
      let (es', s1) ← mapStEx
        (fun x (sc : List String × Nat) => do
          let (x', sd, cc) ← evalF f g sc.1 sc.2 x
          .ok (x', (sd, cc))) es (stdin, c)
      .ok (.listE es', s1.1, s1.2)
    | .recordE fs => do
      let (fs', s1) ← mapStEx
        (fun p (sc : List String × Nat) => do
          let (x', sd, cc) ← evalF f g sc.1 sc.2 p.2
          .ok ((p.1, x'), (sd, cc))) fs (stdin, c)
      .ok (.recordE fs', s1.1, s1.2)
    | .lam p _ body => .ok (.lam p none body, stdin, c)
    | .tlam _ body _ => evalF f g stdin c body
    | .ifE cond a b => do
      let (ce, s1, c1) ← evalF f g stdin c cond
      if isTrueV ce then evalF f g s1 c1 a
      else if isFalseV ce then evalF f g s1 c1 b
      else do
        let (ae, s2, c2) ← evalF f g s1 c1 a
        let (be, s3, c3) ← evalF f g s2 c2 b
        .ok (.ifE ce ae be, s3, c3)
    | .orE a b => do
      let (le, s1, c1) ← evalF f g stdin c a
      if isTrueV le then .ok (le, s1, c1)
      else do
        let (re, s2, c2) ← evalF f g s1 c1 b
        if isTrueV re then .ok (re, s2, c2)
        else if isFalseV le && isFalseV re then .ok (le, s2, c2)
        else .ok (.orE le re, s2, c2)
    | .andE a b => do
      let (le, s1, c1) ← evalF f g stdin c a
      if isFalseV le then .ok (le, s1, c1)
      else do
        let (re, s2, c2) ← evalF f g s1 c1 b
        if isFalseV re then .ok (re, s2, c2)
        else if isTrueV le && isTrueV re then .ok (le, s2, c2)
        else .ok (.andE le re, s2, c2)
    | .notE a => do
      let (ee, s1, c1) ← evalF f g stdin c a
      if isTrueV ee then .ok (.value (.boolL false), s1, c1)
      else if isFalseV ee then .ok (.value (.boolL true), s1, c1)
      else .ok (.notE ee, s1, c1)
    | .rel a op b => do
      let (le, s1, c1) ← evalF f g stdin c a
      let (re, s2, c2) ← evalF f g s1 c1 b
      match le, re with
      | .value x, .value y => do
        let v ← pyRelOp op x y
        .ok (.value v, s2, c2)
      | _, _ => .ok (.rel le op re, s2, c2)
    | .add a op b => do
      let (le, s1, c1) ← evalF f g stdin c a
      let (re, s2, c2) ← evalF f g s1 c1 b
      match le, re with
      | .value x, .value y => do
        let v ← if op = "+" then pyAddLit x y
          else if op = "-" then pySubLit x y
          else .error .pytype
        .ok (.value v, s2, c2)
      | .listE xs, .listE ys => .ok (.listE (xs ++ ys), s2, c2)
      | _, _ => .ok (.add le op re, s2, c2)
    | .mul a op b => do
      let (le, s1, c1) ← evalF f g stdin c a
      let (re, s2, c2) ← evalF f g s1 c1 b
      match le, re with
      | .value x, .value y => do
        let v ← pyMulOp op x y
        .ok (.value v, s2, c2)
      | _, _ => .ok (.mul le op re, s2, c2)
    | .neg a => do
      let (ee, s1, c1) ← evalF f g stdin c a
      match ee with
      | .value x => do
        let v ← pyNegLit x
        .ok (.value v, s1, c1)
      | _ => .ok (.neg ee, s1, c1)
    | .app a b => do
      let (fe, s1, c1) ← evalF f g stdin c a
      let (ae, s2, c2) ← evalF f g s1 c1 b
      match fe with
      | .lam p _ body => do
        let (sb, c3) ← termSubstF f c2 p ae body
        evalF f g s2 c3 sb
      | .named _ => .error .pytype
      | _ => .ok (.app fe ae, s2, c2)
    | .tapp a _ => evalF f g stdin c a
    | .annotated a _ => evalF f g stdin c a
    | .fieldAccess r n => do
      let (re, s1, c1) ← evalF f g stdin c r
      match re with
      | .recordE fs =>
        match alookup fs n with
        | some v => evalF f g s1 c1 v
        | none => .error .pytype
      | _ => .ok (.fieldAccess re n, s1, c1)

/-! ### Struct desugaring (`TraitVisitor.visit_StructStmt` of `trait.py`) -/

/-- Duplicate-field detection while building the record type: items are
inserted in order and a repeated name raises
`Duplicate field name '...'`. -/
def buildRecordFields : List (String × Ty) → List (String × Ty) →
    Except String (List (String × Ty))
  | acc, [] => .ok acc
  | acc, (n, t) :: rest =>
    if (alookup acc n).isSome then .error "Duplicate field name"
    else buildRecordFields (acc ++ [(n, t)]) rest

/-- The curried constructor
`S = \__x0:T1. ... \__x{n-1}:Tn. {f1 = __x0, ..., fn = __x{n-1}}`:
parameters `__x{i}` in declaration order, annotated with the item types,
wrapped around the record that maps each field label to its parameter. -/
def structCtor (items : List (String × Ty)) : Expr :=
  let params := (List.range items.length).map (fun i => "__x" ++ toString i)
  let body : Expr :=
    .recordE (items.enum.map
      (fun p => (p.2.1, Expr.named ("__x" ++ toString p.1))))
  (params.zip (items.map (fun it => it.2))).foldr
    (fun pt acc => Expr.lam pt.1 (some pt.2) acc) body

/-- `visit_StructStmt`: emits the record type alias and the curried
constructor, in that order. -/
def desugarStruct (name : String) (items : List (String × Ty)) :
    Except String (List Stmt) := do
  let fields ← buildRecordFields [] items
  .ok [Stmt.typeAssign name (.record fields),
       Stmt.assign name (structCtor items)]

/-- Strip the leading lambda spine of an expression, collecting the
parameters and their annotations. -/
def peelLams : Expr → List (String × Option Ty) × Expr
  | .lam p pt body =>
    let (ps, core) := peelLams body
    ((p, pt) :: ps, core)
  | e => ([], e)

/-! ### Shared lemmas -/

theorem exceptOkBind {ε α β : Type} (a : α) (g : α → Except ε β) :
    (Except.ok a : Except ε α) >>= g = g a := rfl

theorem exceptErrBind {ε α β : Type} (e : ε) (g : α → Except ε β) :
    (Except.error e : Except ε α) >>= g = .error e := rfl

theorem alookup_append {β : Type} (l1 l2 : List (String × β)) (k : String) :
    alookup (l1 ++ l2) k =
      match alookup l1 k with
      | some v => some v
      | none => alookup l2 k := by
  induction l1 with
  | nil => simp [alookup]
  | cons p r ih =>
    by_cases h : p.1 = k <;> simp [alookup, h, ih]

theorem alookup_some_mem {β : Type} :
    ∀ (l : List (String × β)) (k : String) (v : β),
      alookup l k = some v → (k, v) ∈ l := by
  intro l
  induction l with
  | nil => intro k v h; simp [alookup] at h
  | cons p r ih =>
    intro k v h
    rcases p with ⟨a, b⟩
    by_cases hp : a = k
    · simp only [alookup, if_pos hp] at h
      injection h with h2
      subst hp
      subst h2
      exact List.mem_cons_self _ _
    · simp only [alookup, if_neg hp] at h
      exact List.mem_cons_of_mem _ (ih k v h)

/-- A relational induction principle for `mapStEx`: any reflexive
transitive relation preserved by each element step is preserved by the
whole traversal. -/
theorem mapStEx_rel {α β σ ε : Type} (R : σ → σ → Prop)
    (hrefl : ∀ s, R s s) (htrans : ∀ a b c, R a b → R b c → R a c)
    (g : α → σ → Except ε (β × σ)) :
    ∀ (l : List α) (s : σ) (out : List β × σ),
      (∀ x ∈ l, ∀ s1 y s2, g x s1 = .ok (y, s2) → R s1 s2) →
      mapStEx g l s = .ok out → R s out.2 := by
  intro l
  induction l with
  | nil =>
    intro s out _ h
    simp only [mapStEx, Except.ok.injEq] at h
    subst h
    exact hrefl s
  | cons x r ih =>
    intro s out hg h
    simp only [mapStEx] at h
    cases hx : g x s with
    | error e => rw [hx] at h; simp [exceptErrBind] at h
    | ok pr =>
      rw [hx] at h
      rw [exceptOkBind] at h
      cases hr : mapStEx g r pr.2 with
      | error e => rw [hr] at h; simp [exceptErrBind] at h
      | ok pr2 =>
        rw [hr] at h
        rw [exceptOkBind] at h
        simp only [Except.ok.injEq] at h
        subst h
        have h1 : R s pr.2 := hg x (by simp) s pr.1 pr.2 (by rw [hx])
        have h2 : R pr.2 pr2.2 := ih pr.2 pr2 (fun y hy => hg y (by simp [hy])) hr
        exact htrans _ _ _ h1 h2

/-- Every output element of `mapStEx` is the image of some input element at
some intermediate state. -/
theorem mapStEx_mem {α β σ ε : Type} (g : α → σ → Except ε (β × σ)) :
    ∀ (l : List α) (s : σ) (out : List β × σ),
      mapStEx g l s = .ok out →
      ∀ y ∈ out.1, ∃ x ∈ l, ∃ s1 s2, g x s1 = .ok (y, s2) := by
  intro l
  induction l with
  | nil =>
    intro s out h y hy
    simp only [mapStEx, Except.ok.injEq] at h
    subst h
    simp at hy
  | cons x r ih =>
    intro s out h y hy
    simp only [mapStEx] at h
    cases hx : g x s with
    | error e => rw [hx] at h; simp [exceptErrBind] at h
    | ok pr =>
      rw [hx] at h
      rw [exceptOkBind] at h
      cases hr : mapStEx g r pr.2 with
      | error e => rw [hr] at h; simp [exceptErrBind] at h
      | ok pr2 =>
        rw [hr] at h
        rw [exceptOkBind] at h
        simp only [Except.ok.injEq] at h
        subst h
        rcases List.mem_cons.mp hy with hh | ht
        · exact ⟨x, by simp, s, pr.2, by rw [hx, hh]⟩
        · rcases ih pr.2 pr2 hr y ht with ⟨x0, hx0, s1, s2, hg⟩
          exact ⟨x0, by simp [hx0], s1, s2, hg⟩

/-! ### Type-equality / hashing lemmas for C10 -/

/-- Pointwise `tyEqF`-equal sorted field lists have equal hash skeletons. -/
theorem mapHashEqOfZipAll {f : Nat}
    (ih : ∀ t u, tyEqF f t u = true → tyHashRepF f t = tyHashRepF f u) :
    ∀ (l1 l2 : List (String × Ty)), l1.length = l2.length →
      ((l1.zip l2).all fun pq => pq.1.1 = pq.2.1 && tyEqF f pq.1.2 pq.2.2) = true →
      l1.map (fun p => (p.1, tyHashRepF f p.2)) =
        l2.map (fun p => (p.1, tyHashRepF f p.2)) := by
  intro l1
  induction l1 with
  | nil =>
    intro l2 hl _
    cases l2 with
    | nil => rfl
    | cons q r => simp at hl
  | cons p r1 ih1 =>
    intro l2 hl hall
    cases l2 with
    | nil => simp at hl
    | cons q r2 =>
      simp only [List.zip_cons_cons, List.all_cons, Bool.and_eq_true,
        decide_eq_true_eq] at hall
      simp only [List.map_cons, List.cons.injEq]
      refine ⟨?_, ih1 r2 (by simpa using hl) hall.2⟩
      have h1 := hall.1.1
      have h2 := ih p.2 q.2 hall.1.2
      simp [h1, h2]

/-- Python `__eq__`-equal types feed equal data to `__hash__` (eq/hash
consistency of the custom methods in `parser.py`). -/
theorem tyEq_hashRep :
    ∀ (f : Nat) (t u : Ty), tyEqF f t u = true → tyHashRepF f t = tyHashRepF f u := by
  intro f
  induction f with
  | zero => intro t u h; simp [tyEqF] at h
  | succ f ih =>
    intro t u h
    cases t <;> cases u <;>
      simp only [tyEqF, Bool.and_eq_true, decide_eq_true_eq] at h <;>
      try exact Bool.noConfusion h
    case named.named => simp [tyHashRepF, h]
    case arrow.arrow => simp [tyHashRepF, ih _ _ h.1, ih _ _ h.2]
    case appT.appT => simp [tyHashRepF, ih _ _ h.1, ih _ _ h.2]
    case listT.listT => simp [tyHashRepF, ih _ _ h]
    case record.record fs gs =>
      have := mapHashEqOfZipAll ih (sortByName fs) (sortByName gs) h.1 h.2
      simp [tyHashRepF, this]
    case forAll.forAll => simp [tyHashRepF, h.1, ih _ _ h.2]
    case noneT.noneT => rfl
    case starT.starT => rfl

/-! ### Claim theorems -/

/-- C1: contrary to the claim, the type checker performs no trait-bound
check on a type application.  With `show` bound to
`ForAll(a, bounds, a -> String)` for an arbitrary bound list — in
particular `["Show"]`, the situation of scenario S6 — checking
`show @Int` succeeds with `Int -> String` for every bound list, although no
instance is registered anywhere (the checker does not even hold an instance
table): `visit_TypeAppExpr` only requires a `ForAllType` and substitutes.
The error "does not satisfy trait bounds" does not occur in the source. -/
theorem c1_typeapp_ignores_trait_bounds :
    ∀ (f : Nat) (bounds : List String),
      typeCheckF (f + 10) [] []
        [("show", .ty (.forAll "a" (.arrow (.named "a") (.named "String")) bounds))]
        (.tapp (.named "show") (.named "Int")) =
        .ok (.arrow (.named "Int") (.named "String")) :=
  fun _ _ => rfl

/-- C2 counterexample: with `id : ForAll(a, [], a -> a)`, the claim says the
checker must infer `a := Int` for `App(id, 5)`, rewrite to
`TypeApp(id, Int)` and re-check (succeeding, as the second conjunct shows
for the rewritten term) — instead `visit_AppExpr` reports
"Arrow type expected". -/
theorem c2_counterexample :
    typeCheckF 10 [] []
      [("id", .ty (.forAll "a" (.arrow (.named "a") (.named "a")) []))]
      (.app (.named "id") (.value (.intL 5))) = .error .arrowExpected ∧
    typeCheckF 10 [] []
      [("id", .ty (.forAll "a" (.arrow (.named "a") (.named "a")) []))]
      (.app (.tapp (.named "id") (.named "Int")) (.value (.intL 5))) =
        .ok (.named "Int") :=
  ⟨rfl, rfl⟩

/-- C2 amended: when `App(f, a)` is checked and the type of `f` is any
`ForAll(p, bounds, Arrow(t1, t2))` — including the claim's case of empty
bounds — the checker attempts no unification and reports
"Arrow type expected"; only genuine arrow types are applied. -/
theorem c2_app_forall_errors :
    ∀ (f : Nat) (p : String) (t1 t2 : Ty) (bs : List String) (k : Int),
      typeCheckF (f + 4) [] []
        [("id", .ty (.forAll p (.arrow t1 t2) bs))]
        (.app (.named "id") (.value (.intL k))) = .error .arrowExpected :=
  fun _ _ _ _ _ _ => rfl

/-- C3: the evaluator's term substitution does not alpha-rename a lambda
parameter clashing with a free term variable of the substituted term:
`(λy. x)[x := y]` yields `λy. y`, capturing the free `y` — because
`_FreeVarVisitor` in `interpreter.py` overrides only `visit_ForAllType` and
`visit_NamedType`, so the free-variable set of the term `y` is computed as
empty, contradicting the capture-avoidance rules quoted in the
docstring of `_TermSubstitutionVisitor.visit_LambdaExpr` itself. -/
theorem c3_term_subst_captures :
    termSubstF 10 0 "x" (.named "y") (.lam "y" none (.named "x")) =
      .ok (.lam "y" none (.named "y"), 0) ∧
    termFVF 10 [] (.named "y") = [] :=
  ⟨rfl, rfl⟩

/-- C4 counterexample: dividing the integer literals `-7` by `2` yields
`-4` (Python floor division `//`), not the truncating quotient `-3` the
claim specifies. -/
theorem c4_counterexample :
    evalF 5 [] [] 0 (.mul (.value (.intL (-7))) "/" (.value (.intL 2))) =
      .ok (.value (.intL (-4)), [], 0) ∧
    Int.tdiv (-7) 2 = -3 ∧ ((-4 : Int) ≠ Int.tdiv (-7) 2) :=
  ⟨rfl, rfl, by decide⟩

/-- C4 amended: `/` on two integer literal operands computes floor integer
division (`Int.fdiv`, Python `//`), and evaluation fails if and only if
the divisor is zero — but the failure is the Python `TypeError` raised by
the mis-aritied call `self._error(node, "Division by zero")` against the
one-parameter `_error`, not a runtime error. -/
theorem c4_div_is_floor :
    ∀ (f : Nat) (g : List (String × Expr)) (stdin : List String) (c : Nat)
      (a b : Int),
      evalF (f + 2) g stdin c (.mul (.value (.intL a)) "/" (.value (.intL b))) =
        if b = 0 then .error .pytype
        else .ok (.value (.intL (Int.fdiv a b)), stdin, c) := by
  intro f g stdin c a b
  show evalF ((f + 1) + 1) g stdin c _ = _
  by_cases hb : b = 0
  · subst hb; rfl
  · simp [evalF, pyMulOp, toNum, hb, exceptOkBind]

/-- C8: contrary to the claim, applying `tail` to the fully evaluated
empty list cannot return the empty list, because the builtin machinery is
broken at the class level: `parser.py`'s `NamedExpr` has no `is_builtin`
field, `builtin.py`'s `NamedExpr(..., is_builtin=True)` constructions
raise `TypeError` as soon as that module is imported, and the interpreter
reads `node.is_builtin` in `visit_NamedExpr` and `visit_AppExpr`, raising
`AttributeError` before the `tail` branch (or `head`'s runtime error) can
be reached.  Evaluating `tail []` — and equally `head []` — crashes with
the `AttributeError` at the unbound name `tail`. -/
theorem c8_tail_crashes :
    ∀ (f : Nat) (stdin : List String) (c : Nat),
      evalF (f + 2) [] stdin c (.app (.named "tail") (.listE [])) =
        .error .pytype ∧
      evalF (f + 2) [] stdin c (.app (.named "head") (.listE [])) =
        .error .pytype :=
  fun _ _ _ => ⟨rfl, rfl⟩

/-- C9: contrary to the claim, `%` with a zero right operand never raises
the runtime error "Division by zero": the guard `right_eval.value == 0`
does fire exactly when the divisor is zero (for `%` and `/` alike), but
the error call `self._error(node, "Division by zero")` passes two
arguments to the one-parameter `_error` and raises a Python `TypeError`
about the argument count instead.  The crash — not the claimed message —
occurs if and only if the right operand is zero. -/
theorem c9_mod_div_by_zero_crash :
    ∀ (f : Nat) (g : List (String × Expr)) (stdin : List String) (c : Nat)
      (a b : Int),
      ((evalF (f + 2) g stdin c (.mul (.value (.intL a)) "%" (.value (.intL b))) =
        .error .pytype) ↔ b = 0) ∧
      ((evalF (f + 2) g stdin c (.mul (.value (.intL a)) "/" (.value (.intL b))) =
        .error .pytype) ↔ b = 0) ∧
      (∀ msg : String,
        evalF (f + 2) g stdin c (.mul (.value (.intL a)) "%" (.value (.intL b))) ≠
          .error (.runtime msg)) := by
  intro f g stdin c a b
  refine ⟨?_, ?_, ?_⟩
  · show (evalF ((f + 1) + 1) g stdin c _ = _) ↔ _
    by_cases hb : b = 0
    · subst hb; simp; rfl
    · simp [evalF, pyMulOp, toNum, hb, exceptOkBind]
  · show (evalF ((f + 1) + 1) g stdin c _ = _) ↔ _
    by_cases hb : b = 0
    · subst hb; simp; rfl
    · simp [evalF, pyMulOp, toNum, hb, exceptOkBind]
  · intro msg
    show (evalF ((f + 1) + 1) g stdin c _ ≠ _)
    by_cases hb : b = 0
    · subst hb; simp [evalF, pyMulOp, toNum, exceptOkBind, exceptErrBind]
    · simp [evalF, pyMulOp, toNum, hb, exceptOkBind]

/-- C10: `ForAllType.__eq__` compares only the parameter name and the body,
and `__hash__` hashes only `(param_name, body)`: two `ForAll` types with
the same parameter, `==`-equal bodies and arbitrary different trait-bound
lists are equal and feed identical data to the hash. -/
theorem c10_forall_eq_ignores_bounds :
    ∀ (f : Nat) (p : String) (b1 b2 : Ty) (bs1 bs2 : List String),
      tyEqF f b1 b2 = true →
      tyEqF (f + 1) (.forAll p b1 bs1) (.forAll p b2 bs2) = true ∧
      tyHashRepF (f + 1) (.forAll p b1 bs1) = tyHashRepF (f + 1) (.forAll p b2 bs2) := by
  intro f p b1 b2 bs1 bs2 h
  constructor
  · simp [tyEqF, h]
  · simp [tyHashRepF, tyEq_hashRep f b1 b2 h]

/-- C10 witness: `forall a impl Show. Int` versus `forall a. Int`. -/
theorem c10_forall_eq_ignores_bounds_witness :
    tyEqF 2 (.forAll "a" (.named "Int") ["Show"]) (.forAll "a" (.named "Int") []) = true ∧
    tyHashRepF 2 (.forAll "a" (.named "Int") ["Show"]) =
      tyHashRepF 2 (.forAll "a" (.named "Int") []) :=
  c10_forall_eq_ignores_bounds 1 "a" (.named "Int") (.named "Int") ["Show"] [] rfl

/-! ### Struct-desugaring lemmas and C6 -/

/-- Without duplicate labels, the record type built by `visit_StructStmt`
is exactly the item list in declaration order. -/
theorem buildRecordFields_eq :
    ∀ (items acc : List (String × Ty)),
      (∀ n ∈ items.map Prod.fst, alookup acc n = none) →
      (items.map Prod.fst).Nodup →
      buildRecordFields acc items = .ok (acc ++ items) := by
  intro items
  induction items with
  | nil => intro acc _ _; simp [buildRecordFields]
  | cons it rest ih =>
    intro acc hacc hnd
    rcases it with ⟨n, t⟩
    have hn : alookup acc n = none := hacc n (by simp)
    simp only [buildRecordFields, hn, Option.isSome_none, Bool.false_eq_true,
      if_false, ite_false]
    have hnd' : (rest.map Prod.fst).Nodup := by
      simp only [List.map_cons, List.nodup_cons] at hnd
      exact hnd.2
    have hmem : n ∉ rest.map Prod.fst := by
      simp only [List.map_cons, List.nodup_cons] at hnd
      exact hnd.1
    have hacc' : ∀ m ∈ rest.map Prod.fst, alookup (acc ++ [(n, t)]) m = none := by
      intro m hm
      rw [alookup_append]
      rw [hacc m (by simp [hm])]
      have : m ≠ n := fun he => hmem (he ▸ hm)
      simp [alookup, this.symm]
    rw [ih (acc ++ [(n, t)]) hacc' hnd']
    simp

/-- Peeling the lambda spine built by a `foldr` of annotated lambdas. -/
theorem peelLams_foldr :
    ∀ (l : List (String × Ty)) (core : Expr), peelLams core = ([], core) →
      peelLams (l.foldr (fun pt acc => Expr.lam pt.1 (some pt.2) acc) core) =
        (l.map (fun pt => (pt.1, some pt.2)), core) := by
  intro l core hcore
  induction l with
  | nil => simpa using hcore
  | cons p r ih => simp [peelLams, ih]

/-- C6: desugaring `Struct S {f1: T1; ...; fn: Tn;}` (labels distinct)
emits exactly the two statements `TypeAssign(S, {f1: T1, ..., fn: Tn})` and
`Assign(S, curried constructor)`; the constructor's lambda spine binds one
parameter per field in declaration order, the i-th parameter annotated with
`Ti`, around a record mapping each field label to its parameter. -/
theorem c6_struct_desugar :
    ∀ (name : String) (items : List (String × Ty)),
      (items.map Prod.fst).Nodup →
      desugarStruct name items =
        .ok [.typeAssign name (.record items), .assign name (structCtor items)] ∧
      (peelLams (structCtor items)).1 =
        ((List.range items.length).map (fun i => "__x" ++ toString i)).zip
          (items.map (fun it => some it.2)) ∧
      (peelLams (structCtor items)).2 =
        .recordE (items.enum.map
          (fun p => (p.2.1, Expr.named ("__x" ++ toString p.1)))) := by
  intro name items hnd
  have h1 : buildRecordFields [] items = .ok items := by
    have := buildRecordFields_eq items [] (by intro n _; rfl) hnd
    simpa using this
  have h2 := peelLams_foldr
    (((List.range items.length).map (fun i => "__x" ++ toString i)).zip
      (items.map (fun it => it.2)))
    (Expr.recordE (items.enum.map
      (fun p => (p.2.1, Expr.named ("__x" ++ toString p.1))))) rfl
  refine ⟨?_, ?_, ?_⟩
  · simp [desugarStruct, h1, exceptOkBind]
  · rw [structCtor]
    rw [h2]
    rw [List.zip_map_right, List.zip_map_right, List.map_map]
    show List.map _ _ = List.map _ _
    apply List.map_congr_left
    intro pt _
    rcases pt with ⟨a, b⟩
    simp [Prod.map]
  · rw [structCtor]
    rw [h2]

/-- C6 witness: the struct `P {x: Int, y: Int}` of scenario S3. -/
theorem c6_struct_desugar_witness :
    desugarStruct "P" [("x", .named "Int"), ("y", .named "Int")] =
      .ok [.typeAssign "P" (.record [("x", .named "Int"), ("y", .named "Int")]),
           .assign "P" (structCtor [("x", .named "Int"), ("y", .named "Int")])] ∧
    (peelLams (structCtor [("x", .named "Int"), ("y", .named "Int")])).1 =
      ((List.range 2).map (fun i => "__x" ++ toString i)).zip
        [some (.named "Int"), some (.named "Int")] ∧
    (peelLams (structCtor [("x", .named "Int"), ("y", .named "Int")])).2 =
      .recordE [("x", Expr.named "__x0"), ("y", Expr.named "__x1")] :=
  c6_struct_desugar "P" [("x", .named "Int"), ("y", .named "Int")] (by decide)

/-- No entry of the `which_trait` table maps to the empty string (trait
names come from non-empty identifier tokens). -/
def noEmptyWT (wt : List (String × String)) : Prop :=
  ∀ kv ∈ wt, kv.2 ≠ ""

theorem wtErase_lookup :
    ∀ (wt : List (String × String)) (k j : String),
      alookup (wtErase wt k) j = if j = k then none else alookup wt j := by
  intro wt k j
  induction wt with
  | nil => by_cases h : j = k <;> simp [wtErase, alookup, h]
  | cons p r ih =>
    rcases p with ⟨a, v⟩
    by_cases hak : a = k
    · subst hak
      have he : wtErase ((a, v) :: r) a = wtErase r a := by simp [wtErase]
      rw [he, ih]
      by_cases hj : j = a
      · rw [if_pos hj, if_pos hj]
      · rw [if_neg hj, if_neg hj]
        simp only [alookup]
        rw [if_neg (fun h => hj h.symm)]
    · have he : wtErase ((a, v) :: r) k = (a, v) :: wtErase r k := by
        simp [wtErase, hak]
      rw [he]
      simp only [alookup]
      by_cases hja : a = j
      · subst hja
        rw [if_pos rfl, if_neg hak, if_pos rfl]
      · rw [if_neg hja, if_neg hja, ih]

theorem wtErase_mem :
    ∀ (wt : List (String × String)) (k : String) (kv : String × String),
      kv ∈ wtErase wt k → kv ∈ wt := by
  intro wt k kv
  induction wt with
  | nil => simp [wtErase]
  | cons p r ih =>
    simp only [wtErase]
    by_cases hp : p.1 = k
    · rw [if_pos hp]
      intro h
      exact List.mem_cons_of_mem _ (ih h)
    · rw [if_neg hp]
      intro h
      rcases List.mem_cons.mp h with h1 | h2
      · exact h1 ▸ List.mem_cons_self _ _
      · exact List.mem_cons_of_mem _ (ih h2)

theorem wtUpdate_lookup :
    ∀ (wt : List (String × String)) (k v j : String),
      (alookup wt k).isSome →
      alookup (wtUpdate wt k v) j = if j = k then some v else alookup wt j := by
  intro wt k v j
  induction wt with
  | nil => intro hp; simp [alookup] at hp
  | cons p r ih =>
    intro hp
    rcases p with ⟨a, w⟩
    by_cases hak : a = k
    · subst hak
      by_cases hj : j = a
      · subst hj; simp [wtUpdate, alookup]
      · simp only [wtUpdate, if_pos rfl, alookup, if_neg hj]
        rw [if_neg (fun h => hj h.symm), if_neg (fun h => hj h.symm)]
    · have hp' : (alookup r k).isSome := by
        simp only [alookup, if_neg hak] at hp
        exact hp
      by_cases hja : a = j
      · subst hja
        have hjk : ¬(a = k) := hak
        simp [wtUpdate, alookup, if_neg hak, hjk]
      · simp only [wtUpdate, if_neg hak, alookup, if_neg hja, ih hp']

theorem wtUpdate_mem :
    ∀ (wt : List (String × String)) (k v : String) (kv : String × String),
      kv ∈ wtUpdate wt k v → kv ∈ wt ∨ kv = (k, v) := by
  intro wt k v kv
  induction wt with
  | nil => simp [wtUpdate]
  | cons p r ih =>
    simp only [wtUpdate]
    by_cases hp : p.1 = k
    · rw [if_pos hp]
      intro h
      rcases List.mem_cons.mp h with h1 | h2
      · exact Or.inr h1
      · exact Or.inl (List.mem_cons_of_mem _ h2)
    · rw [if_neg hp]
      intro h
      rcases List.mem_cons.mp h with h1 | h2
      · exact Or.inl (h1 ▸ List.mem_cons_self _ _)
      · rcases ih h2 with hh | hh
        · exact Or.inl (List.mem_cons_of_mem _ hh)
        · exact Or.inr hh

theorem wtInsert_lookup (wt : List (String × String)) (k v j : String) :
    alookup (wtInsert wt k v) j = if j = k then some v else alookup wt j := by
  simp only [wtInsert]
  by_cases hp : (alookup wt k).isSome
  · rw [if_pos hp]
    exact wtUpdate_lookup wt k v j hp
  · rw [if_neg hp]
    rw [alookup_append]
    rw [Option.not_isSome_iff_eq_none] at hp
    by_cases hj : j = k
    · subst hj
      simp [hp, alookup]
    · cases ha : alookup wt j with
      | none =>
        simp only [alookup]
        rw [if_neg (fun h => hj h.symm)]
        simp [hj]
      | some w => simp [hj]

theorem wtInsert_noEmpty (wt : List (String × String)) (k v : String)
    (hv : v ≠ "") (h : noEmptyWT wt) : noEmptyWT (wtInsert wt k v) := by
  intro kv hkv
  simp only [wtInsert] at hkv
  by_cases hp : (alookup wt k).isSome
  · rw [if_pos hp] at hkv
    rcases wtUpdate_mem wt k v kv hkv with hin | heq
    · exact h kv hin
    · rw [heq]; exact hv
  · rw [if_neg hp] at hkv
    rcases List.mem_append.mp hkv with hin | hsing
    · exact h kv hin
    · simp at hsing
      rw [hsing]
      exact hv

theorem wtPop_noEmpty (wt : List (String × String)) (k : String)
    (h : noEmptyWT wt) : noEmptyWT (wtPop wt k).2 := by
  intro kv hkv
  exact h kv (wtErase_mem wt k kv hkv)

theorem wtPop_popped (wt : List (String × String)) (k : String)
    (h : noEmptyWT wt) : ∀ v, (wtPop wt k).1 = some v → v ≠ "" := by
  intro v hv
  exact h (k, v) (alookup_some_mem wt k v hv)

theorem wtRestore_lookup_of_pop (wt : List (String × String)) (p : String)
    (hne : noEmptyWT wt) (wt2 : List (String × String))
    (h2 : ∀ k, alookup wt2 k = alookup (wtPop wt p).2 k) :
    ∀ k, alookup (wtRestore wt2 p (wtPop wt p).1) k = alookup wt k := by
  intro k
  cases hv : (wtPop wt p).1 with
  | none =>
    simp only [wtRestore]
    rw [h2 k]
    show alookup (wtErase wt p) k = _
    rw [wtErase_lookup]
    by_cases hk : k = p
    · subst hk
      have hvk : alookup wt k = none := hv
      simp [hvk]
    · simp [hk]
  | some v =>
    have hvne : v ≠ "" := wtPop_popped wt p hne v hv
    simp only [wtRestore, if_neg hvne]
    rw [wtInsert_lookup, h2 k]
    show (if k = p then some v else alookup (wtErase wt p) k) = _
    rw [wtErase_lookup]
    by_cases hk : k = p
    · subst hk
      have hvk : alookup wt k = some v := hv
      simp [hvk]
    · simp [hk]

theorem wtRestore_noEmpty (wt2 : List (String × String)) (p : String)
    (po : Option String) (h : noEmptyWT wt2) :
    noEmptyWT (wtRestore wt2 p po) := by
  cases po with
  | none => exact h
  | some v =>
    by_cases hv : v = ""
    · simp only [wtRestore, if_pos hv]; exact h
    · simp only [wtRestore, if_neg hv]
      exact wtInsert_noEmpty wt2 p v hv h

theorem wrapDictParams_wt :
    ∀ (f : Nat) (p : String) (bs : List String) (body : Expr) (st : DState),
      ((wrapDictParams f p bs body st).2).wt = st.wt := by
  intro f p bs
  induction bs with
  | nil => intro body st; rfl
  | cons t r ih => intro body st; simp [wrapDictParams, ih]

/-- Inversion of a successful `Except` bind. -/
theorem exceptBind_ok_inv {ε α β : Type} {m : Except ε α} {g : α → Except ε β}
    {b : β} (h : m >>= g = .ok b) : ∃ a, m = .ok a ∧ g a = .ok b := by
  cases m with
  | error e => exact absurd h (by simp [exceptErrBind])
  | ok a => exact ⟨a, rfl, h⟩

/-- The `which_trait` relation a dispatcher step preserves: lookups are
unchanged and emptiness of values is maintained. -/
def wtRel (s s' : DState) : Prop :=
  noEmptyWT s.wt →
    (∀ k, alookup s'.wt k = alookup s.wt k) ∧ noEmptyWT s'.wt

theorem wtRel_refl (s : DState) : wtRel s s := fun h => ⟨fun _ => rfl, h⟩

theorem wtRel_trans (a b c : DState) (h1 : wtRel a b) (h2 : wtRel b c) :
    wtRel a c := by
  intro ha
  rcases h1 ha with ⟨e1, n1⟩
  rcases h2 n1 with ⟨e2, n2⟩
  exact ⟨fun k => (e2 k).trans (e1 k), n2⟩

theorem dispatch_preserves_wt :
    ∀ (f : Nat) (st : DState) (e : Expr) (out : Expr × DState),
      dispatchExprF f st e = .ok out → wtRel st out.2 := by
  intro f
  induction f with
  | zero => intro st e out h; exact absurd h (by simp [dispatchExprF])
  | succ f ih =>
    intro st e out h
    cases e with
    | named n =>
      simp only [dispatchExprF] at h
      by_cases hn : (alookup st.wt n).isSome
      · rw [if_pos hn] at h; exact absurd h (by simp)
      · rw [if_neg hn] at h
        injection h with h
        rw [← h]
        exact wtRel_refl st
    | value v =>
      simp only [dispatchExprF] at h
      injection h with h
      rw [← h]
      exact wtRel_refl st
    | listE es =>
      simp only [dispatchExprF] at h
      obtain ⟨pr, hm, h2⟩ := exceptBind_ok_inv h
      injection h2 with h2
      rw [← h2]
      exact mapStEx_rel wtRel wtRel_refl wtRel_trans _ es st pr
        (fun x _ s1 y s2 hg => ih s1 x (y, s2) hg) hm
    | recordE fs =>
      simp only [dispatchExprF] at h
      obtain ⟨pr, hm, h2⟩ := exceptBind_ok_inv h
      injection h2 with h2
      rw [← h2]
      refine mapStEx_rel wtRel wtRel_refl wtRel_trans _ fs st pr
        (fun x _ s1 y s2 hg => ?_) hm
      obtain ⟨q, hq, hq2⟩ := exceptBind_ok_inv hg
      injection hq2 with hq2
      have hs : q.2 = s2 := congrArg Prod.snd hq2
      exact hs ▸ ih s1 x.2 q hq
    | lam p pt body =>
      simp only [dispatchExprF] at h
      obtain ⟨⟨body', st1⟩, hb, h2⟩ := exceptBind_ok_inv h
      injection h2 with h2
      rw [← h2]
      intro hne
      have hpop := wtPop_noEmpty st.wt p hne
      rcases ih _ body _ hb hpop with ⟨he, hn⟩
      constructor
      · exact wtRestore_lookup_of_pop st.wt p hne st1.wt he
      · exact wtRestore_noEmpty st1.wt p _ hn
    | tlam p body bounds =>
      simp only [dispatchExprF] at h
      by_cases hb0 : bounds = []
      · rw [if_pos hb0] at h
        obtain ⟨⟨body', st1⟩, hb, h2⟩ := exceptBind_ok_inv h
        injection h2 with h2
        rw [← h2]
        intro hne
        have hpop := wtPop_noEmpty st.wt p hne
        rcases ih _ body _ hb hpop with ⟨he, hn⟩
        constructor
        · exact wtRestore_lookup_of_pop st.wt p hne st1.wt he
        · exact wtRestore_noEmpty st1.wt p _ hn
      · rw [if_neg hb0] at h
        obtain ⟨⟨body', st2⟩, hb, h2⟩ := exceptBind_ok_inv h
        injection h2 with h2
        rw [← h2]
        intro hne
        have hpop := wtPop_noEmpty st.wt p hne
        have hwrap := wrapDictParams_wt f p bounds body
          { st with wt := (wtPop st.wt p).2 }
        have hne1 : noEmptyWT ((wrapDictParams f p bounds body
            { st with wt := (wtPop st.wt p).2 }).2).wt := by
          rw [hwrap]; exact hpop
        rcases ih _ _ _ hb hne1 with ⟨he, hn⟩
        rw [hwrap] at he
        constructor
        · exact wtRestore_lookup_of_pop st.wt p hne st2.wt he
        · exact wtRestore_noEmpty st2.wt p _ hn
    | app a b =>
      simp only [dispatchExprF] at h
      obtain ⟨⟨a', st1⟩, ha, h2⟩ := exceptBind_ok_inv h
      obtain ⟨⟨b', st2⟩, hb, h3⟩ := exceptBind_ok_inv h2
      injection h3 with h3
      rw [← h3]
      exact wtRel_trans st st1 st2 (ih st a (a', st1) ha) (ih st1 b (b', st2) hb)
    | tapp a ta =>
      simp only [dispatchExprF] at h
      cases a with
      | named n =>
        dsimp only at h
        cases hw : alookup st.wt n with
        | none => rw [hw] at h; exact absurd h (by simp)
        | some trait =>
          rw [hw] at h
          dsimp only at h
          cases hg : giLookup f st.gi trait ta with
          | none => rw [hg] at h; exact absurd h (by simp)
          | some inst =>
            rw [hg] at h
            injection h with h
            rw [← h]
            exact wtRel_refl st
      | value v => exact absurd h (by simp)
      | listE es => exact absurd h (by simp)
      | recordE fs => exact absurd h (by simp)
      | lam p pt body => exact absurd h (by simp)
      | tlam p body bs => exact absurd h (by simp)
      | app x y => exact absurd h (by simp)
      | tapp x t => exact absurd h (by simp)
      | annotated x t => exact absurd h (by simp)
      | fieldAccess r nn => exact absurd h (by simp)
      | ifE c1 t1 e1 => exact absurd h (by simp)
      | orE x y => exact absurd h (by simp)
      | andE x y => exact absurd h (by simp)
      | notE x => exact absurd h (by simp)
      | rel x o y => exact absurd h (by simp)
      | add x o y => exact absurd h (by simp)
      | mul x o y => exact absurd h (by simp)
      | neg x => exact absurd h (by simp)
    | annotated a ta =>
      simp only [dispatchExprF] at h
      obtain ⟨⟨a', st1⟩, ha, h2⟩ := exceptBind_ok_inv h
      injection h2 with h2
      rw [← h2]
      exact ih st a (a', st1) ha
    | fieldAccess r n =>
      simp only [dispatchExprF] at h
      obtain ⟨⟨r', st1⟩, hr, h2⟩ := exceptBind_ok_inv h
      injection h2 with h2
      rw [← h2]
      exact ih st r (r', st1) hr
    | ifE c1 t1 e1 =>
      simp only [dispatchExprF] at h
      obtain ⟨⟨x1, s1⟩, h1, h2⟩ := exceptBind_ok_inv h
      obtain ⟨⟨x2, s2⟩, h3, h4⟩ := exceptBind_ok_inv h2
      obtain ⟨⟨x3, s3⟩, h5, h6⟩ := exceptBind_ok_inv h4
      injection h6 with h6
      rw [← h6]
      exact wtRel_trans st s1 s3 (ih st c1 (x1, s1) h1)
        (wtRel_trans s1 s2 s3 (ih s1 t1 (x2, s2) h3) (ih s2 e1 (x3, s3) h5))
    | orE a b =>
      simp only [dispatchExprF] at h
      obtain ⟨⟨a', st1⟩, ha, h2⟩ := exceptBind_ok_inv h
      obtain ⟨⟨b', st2⟩, hb, h3⟩ := exceptBind_ok_inv h2
      injection h3 with h3
      rw [← h3]
      exact wtRel_trans st st1 st2 (ih st a (a', st1) ha) (ih st1 b (b', st2) hb)
    | andE a b =>
      simp only [dispatchExprF] at h
      obtain ⟨⟨a', st1⟩, ha, h2⟩ := exceptBind_ok_inv h
      obtain ⟨⟨b', st2⟩, hb, h3⟩ := exceptBind_ok_inv h2
      injection h3 with h3
      rw [← h3]
      exact wtRel_trans st st1 st2 (ih st a (a', st1) ha) (ih st1 b (b', st2) hb)
    | notE a =>
      simp only [dispatchExprF] at h
      obtain ⟨⟨a', st1⟩, ha, h2⟩ := exceptBind_ok_inv h
      injection h2 with h2
      rw [← h2]
      exact ih st a (a', st1) ha
    | rel a op b =>
      simp only [dispatchExprF] at h
      obtain ⟨⟨a', st1⟩, ha, h2⟩ := exceptBind_ok_inv h
      obtain ⟨⟨b', st2⟩, hb, h3⟩ := exceptBind_ok_inv h2
      injection h3 with h3
      rw [← h3]
      exact wtRel_trans st st1 st2 (ih st a (a', st1) ha) (ih st1 b (b', st2) hb)
    | add a op b =>
      simp only [dispatchExprF] at h
      obtain ⟨⟨a', st1⟩, ha, h2⟩ := exceptBind_ok_inv h
      obtain ⟨⟨b', st2⟩, hb, h3⟩ := exceptBind_ok_inv h2
      injection h3 with h3
      rw [← h3]
      exact wtRel_trans st st1 st2 (ih st a (a', st1) ha) (ih st1 b (b', st2) hb)
    | mul a op b =>
      simp only [dispatchExprF] at h
      obtain ⟨⟨a', st1⟩, ha, h2⟩ := exceptBind_ok_inv h
      obtain ⟨⟨b', st2⟩, hb, h3⟩ := exceptBind_ok_inv h2
      injection h3 with h3
      rw [← h3]
      exact wtRel_trans st st1 st2 (ih st a (a', st1) ha) (ih st1 b (b', st2) hb)
    | neg a =>
      simp only [dispatchExprF] at h
      obtain ⟨⟨a', st1⟩, ha, h2⟩ := exceptBind_ok_inv h
      injection h2 with h2
      rw [← h2]
      exact ih st a (a', st1) ha

/-- C7 counterexample: `visit_AssignStmt` pops the colliding key from
`which_trait` and never restores it, so the table after processing
`Assign(show, 1)` (empty) differs from the table before
(`{show: Show}`) — the claim of restoration for all three node kinds is
false for `Assign`. -/
theorem c7_counterexample :
    dispatchStmtF 10 ⟨[("show", "Show")], [], 0⟩
      (.assign "show" (.value (.intL 1))) =
      .ok (.assign "show" (.value (.intL 1)), ⟨[], [], 0⟩) ∧
    alookup ([] : List (String × String)) "show" ≠
      alookup [("show", "Show")] "show" :=
  ⟨rfl, by simp [alookup]⟩

/-- C7 amended: a `Lambda` or `TypeLambda` binding a name that collides
with a `which_trait` key shadows it during the traversal of the body and
restores it on ascent (lookup-equal table), but an `Assign` removes the
colliding entry permanently: after `visit_AssignStmt` the table equals the
previous table with the assigned name deleted. -/
theorem c7_shadow_restore :
    ∀ (f : Nat) (st : DState) (p : String) (pt : Option Ty) (body : Expr)
      (bounds : List String) (n : String) (e : Expr)
      (out1 out2 : Expr × DState) (out3 : Stmt × DState),
      noEmptyWT st.wt →
      dispatchExprF f st (.lam p pt body) = .ok out1 →
      dispatchExprF f st (.tlam p body bounds) = .ok out2 →
      dispatchStmtF f st (.assign n e) = .ok out3 →
      (∀ k, alookup out1.2.wt k = alookup st.wt k) ∧
      (∀ k, alookup out2.2.wt k = alookup st.wt k) ∧
      (∀ k, alookup out3.2.wt k = alookup (wtErase st.wt n) k) ∧
      alookup out3.2.wt n = none := by
  intro f st p pt body bounds n e out1 out2 out3 hne h1 h2 h3
  have hassign : (∀ k, alookup out3.2.wt k = alookup (wtErase st.wt n) k) := by
    cases f with
    | zero => exact absurd h3 (by simp [dispatchStmtF, dispatchExprF, exceptErrBind])
    | succ f0 =>
      simp only [dispatchStmtF] at h3
      obtain ⟨⟨e', st1⟩, he, h4⟩ := exceptBind_ok_inv h3
      have hpop : noEmptyWT (wtErase st.wt n) :=
        wtPop_noEmpty st.wt n hne
      rcases dispatch_preserves_wt (f0 + 1) _ _ _ he hpop with ⟨hl, _⟩
      injection h4 with h4
      rw [← h4]
      exact hl
  refine ⟨(dispatch_preserves_wt f st _ out1 h1 hne).1,
    (dispatch_preserves_wt f st _ out2 h2 hne).1, hassign, ?_⟩
  rw [hassign n, wtErase_lookup]
  simp

/-- C7 witness: the amended theorem at the one-entry table
`{show: Show}` with colliding binders. -/
theorem c7_shadow_restore_witness :
    (∀ k, alookup [("show", "Show")] k = alookup [("show", "Show")] k) ∧
    (∀ k, alookup [("show", "Show")] k = alookup [("show", "Show")] k) ∧
    (∀ k, alookup ([] : List (String × String)) k =
        alookup (wtErase [("show", "Show")] "show") k) ∧
    alookup ([] : List (String × String)) "show" = none :=
  c7_shadow_restore 10 ⟨[("show", "Show")], [], 0⟩ "show" none
    (.value (.intL 1)) [] "show" (.value (.intL 1))
    (.lam "show" none (.value (.intL 1)), ⟨[("show", "Show")], [], 0⟩)
    (.tlam "show" (.value (.intL 1)) [], ⟨[("show", "Show")], [], 0⟩)
    (.assign "show" (.value (.intL 1)), ⟨[], [], 0⟩)
    (by intro kv hkv; simp at hkv; rw [hkv]; simp) rfl rfl rfl

/-! ### Sizes (fuel adequacy bounds for the resolver) -/

mutual
def tsizeT : Ty → Nat
  | .named _ => 1
  | .arrow l r => 1 + tsizeT l + tsizeT r
  | .appT a b => 1 + tsizeT a + tsizeT b
  | .listT e => 1 + tsizeT e
  | .record fs => 1 + tsizeTFs fs
  | .forAll _ b _ => 1 + tsizeT b
  | .noneT => 1
  | .starT => 1
def tsizeTFs : List (String × Ty) → Nat
  | [] => 0
  | (_, t) :: r => 1 + tsizeT t + tsizeTFs r
end

mutual
def esizeE : Expr → Nat
  | .named _ => 1
  | .value _ => 1
  | .listE es => 1 + esizeEl es
  | .recordE fs => 1 + esizeEFs fs
  | .lam _ pt body =>
    1 + (match pt with
         | some t => tsizeT t
         | none => 0) + esizeE body
  | .tlam _ body _ => 1 + esizeE body
  | .app a b => 1 + esizeE a + esizeE b
  | .tapp a ta => 1 + esizeE a + tsizeT ta
  | .annotated a ta => 1 + esizeE a + tsizeT ta
  | .fieldAccess r _ => 1 + esizeE r
  | .ifE c a b => 1 + esizeE c + esizeE a + esizeE b
  | .orE a b => 1 + esizeE a + esizeE b
  | .andE a b => 1 + esizeE a + esizeE b
  | .notE a => 1 + esizeE a
  | .rel a _ b => 1 + esizeE a + esizeE b
  | .add a _ b => 1 + esizeE a + esizeE b
  | .mul a _ b => 1 + esizeE a + esizeE b
  | .neg a => 1 + esizeE a
def esizeEl : List Expr → Nat
  | [] => 0
  | e :: r => 1 + esizeE e + esizeEl r
def esizeEFs : List (String × Expr) → Nat
  | [] => 0
  | (_, e) :: r => 1 + esizeE e + esizeEFs r
end

def ssizeS : Stmt → Nat
  | .assign _ e => 1 + esizeE e
  | .typeAssign _ t => 1 + tsizeT t
  | .exprStmt e => 1 + esizeE e
  | .traitFieldEnv _ _ t => 1 + tsizeT t
  | .instanceEnv _ tp ie => 1 + tsizeT tp + esizeE ie

def psize : List Stmt → Nat
  | [] => 0
  | s :: r => ssizeS s + psize r

theorem tsizeT_mem : ∀ (fs : List (String × Ty)) (p : String × Ty),
    p ∈ fs → tsizeT p.2 < tsizeTFs fs := by
  intro fs
  induction fs with
  | nil => intro p h; simp at h
  | cons q r ih =>
    intro p h
    rcases q with ⟨l, t⟩
    rcases List.mem_cons.mp h with h1 | h2
    · rw [h1]
      simp only [tsizeTFs]
      omega
    · have := ih p h2
      simp only [tsizeTFs]
      omega

theorem esizeEl_mem : ∀ (es : List Expr) (e : Expr),
    e ∈ es → esizeE e < esizeEl es := by
  intro es
  induction es with
  | nil => intro e h; simp at h
  | cons x r ih =>
    intro e h
    rcases List.mem_cons.mp h with h1 | h2
    · rw [h1]; simp only [esizeEl]; omega
    · have := ih e h2
      simp only [esizeEl]
      omega

theorem esizeEFs_mem : ∀ (fs : List (String × Expr)) (p : String × Expr),
    p ∈ fs → esizeE p.2 < esizeEFs fs := by
  intro fs
  induction fs with
  | nil => intro p h; simp at h
  | cons q r ih =>
    intro p h
    rcases q with ⟨l, e⟩
    rcases List.mem_cons.mp h with h1 | h2
    · rw [h1]; simp only [esizeEFs]; omega
    · have := ih p h2
      simp only [esizeEFs]
      omega

theorem psize_mem : ∀ (ss : List Stmt) (s : Stmt),
    s ∈ ss → ssizeS s ≤ psize ss := by
  intro ss
  induction ss with
  | nil => intro s h; simp at h
  | cons x r ih =>
    intro s h
    rcases List.mem_cons.mp h with h1 | h2
    · rw [h1]; simp only [psize]; omega
    · have := ih s h2
      simp only [psize]
      omega

/-! ### Resolvedness predicates -/

/-- A type is fully resolved relative to a stack of bound type-variable
names: no alias names, no type-level applications, no sentinels. -/
inductive RTy : List String → Ty → Prop where
  | named (stk : List String) (n : String) :
      (isBuiltInType n = true ∨ n ∈ stk) → RTy stk (.named n)
  | arrow {stk l r} : RTy stk l → RTy stk r → RTy stk (.arrow l r)
  | listT {stk e} : RTy stk e → RTy stk (.listT e)
  | record {stk fs} : (∀ p ∈ fs, RTy stk p.2) → RTy stk (.record fs)
  | forAll {stk b bs} (p : String) :
      RTy (p :: stk) b → RTy stk (.forAll p b bs)

theorem RTy_mono : ∀ {stk : List String} {t : Ty}, RTy stk t →
    ∀ {stk' : List String}, (∀ x ∈ stk, x ∈ stk') → RTy stk' t := by
  intro stk t h
  induction h with
  | named s n hn =>
    intro stk' hs
    rcases hn with hb | hm
    · exact RTy.named stk' n (Or.inl hb)
    · exact RTy.named stk' n (Or.inr (hs n hm))
  | arrow hl hr ihl ihr => intro stk' hs; exact RTy.arrow (ihl hs) (ihr hs)
  | listT he ihe => intro stk' hs; exact RTy.listT (ihe hs)
  | record hfs ih =>
    intro stk' hs
    exact RTy.record (fun p hp => ih p hp hs)
  | forAll p hb ihb =>
    intro stk' hs
    refine RTy.forAll p (ihb ?_)
    intro x hx
    rcases List.mem_cons.mp hx with h1 | h2
    · rw [h1]; exact List.mem_cons_self _ _
    · exact List.mem_cons_of_mem _ (hs x h2)

/-- Capture-avoiding substitution keeps a type resolved: substituting a
resolved `new` for `old` in a body resolved under `old :: stk` yields a
type resolved under `stk`. -/
theorem substTyF_resolved :
    ∀ (f : Nat), ∀ (c : Nat) (old : String) (new B B' : Ty) (c' : Nat)
      (stk : List String),
      substTyF f c old new B = .ok (B', c') →
      RTy (old :: stk) B → RTy stk new → RTy stk B' := by
  intro f
  induction f with
  | zero => intro c old new B B' c' stk h; exact absurd h (by simp [substTyF])
  | succ f ih =>
    intro c old new B B' c' stk h hB hnew
    cases hB with
    | named _ n hn =>
      simp only [substTyF] at h
      injection h with h
      have hfst : (if n = old then new else Ty.named n) = B' :=
        congrArg Prod.fst h
      by_cases hno : n = old
      · rw [if_pos hno] at hfst
        rw [← hfst]
        exact hnew
      · rw [if_neg hno] at hfst
        rw [← hfst]
        refine RTy.named stk n ?_
        rcases hn with hb | hm
        · exact Or.inl hb
        · rcases List.mem_cons.mp hm with h1 | h2
          · exact absurd h1 hno
          · exact Or.inr h2
    | arrow hl hr =>
      simp only [substTyF] at h
      obtain ⟨⟨l', c1⟩, hl2, h2⟩ := exceptBind_ok_inv h
      obtain ⟨⟨r', c2⟩, hr2, h3⟩ := exceptBind_ok_inv h2
      injection h3 with h3
      have hfst : Ty.arrow l' r' = B' := congrArg Prod.fst h3
      rw [← hfst]
      exact RTy.arrow (ih c old new _ l' c1 stk hl2 hl hnew)
        (ih c1 old new _ r' c2 stk hr2 hr hnew)
    | listT he =>
      simp only [substTyF] at h
      obtain ⟨⟨e', c1⟩, he2, h2⟩ := exceptBind_ok_inv h
      injection h2 with h2
      have hfst : Ty.listT e' = B' := congrArg Prod.fst h2
      rw [← hfst]
      exact RTy.listT (ih c old new _ e' c1 stk he2 he hnew)
    | record hfs =>
      simp only [substTyF] at h
      obtain ⟨⟨fs', c1⟩, hm, h2⟩ := exceptBind_ok_inv h
      injection h2 with h2
      have hfst : Ty.record fs' = B' := congrArg Prod.fst h2
      rw [← hfst]
      refine RTy.record ?_
      intro q hq
      obtain ⟨x, hx, s1, s2, hg⟩ := mapStEx_mem _ _ _ _ hm q hq
      obtain ⟨⟨t', c2⟩, ht, h4⟩ := exceptBind_ok_inv hg
      injection h4 with h4
      have hq' : (x.1, t') = q := congrArg Prod.fst h4
      rw [← hq']
      exact ih s1 old new _ t' c2 stk ht (hfs x hx) hnew
    | forAll p hb =>
      rename_i b0 bs0
      simp only [substTyF] at h
      by_cases hpo : p = old
      · rw [if_pos hpo] at h
        injection h with h
        have hfst : Ty.forAll p b0 bs0 = B' := congrArg Prod.fst h
        rw [← hfst]
        refine RTy.forAll p (RTy_mono hb ?_)
        intro x hx
        rcases List.mem_cons.mp hx with h1 | h2
        · rw [h1]; exact List.mem_cons_self _ _
        · rcases List.mem_cons.mp h2 with h3 | h4
          · rw [h3, hpo]; exact List.mem_cons_self _ _
          · exact List.mem_cons_of_mem _ h4
      · rw [if_neg hpo] at h
        by_cases hfv : p ∈ tyFVF f [] new
        · rw [if_pos hfv] at h
          obtain ⟨⟨b1, c1⟩, hb1, h2⟩ := exceptBind_ok_inv h
          obtain ⟨⟨b2, c2⟩, hb2, h3⟩ := exceptBind_ok_inv h2
          injection h3 with h3
          have hfst : Ty.forAll (freshName p c) b2 bs0 = B' :=
            congrArg Prod.fst h3
          rw [← hfst]
          have hstep1 : RTy (freshName p c :: old :: stk) b1 := by
            refine ih (c + 1) p (.named (freshName p c)) _ b1 c1
              (freshName p c :: old :: stk) hb1 (RTy_mono hb ?_) ?_
            · intro x hx
              rcases List.mem_cons.mp hx with h1 | h2
              · rw [h1]; exact List.mem_cons_self _ _
              · exact List.mem_cons_of_mem _ (List.mem_cons_of_mem _ h2)
            · exact RTy.named _ _ (Or.inr (List.mem_cons_self _ _))
          have hstep2 : RTy (freshName p c :: stk) b2 := by
            refine ih c1 old new b1 b2 c2 (freshName p c :: stk) hb2
              (RTy_mono hstep1 ?_) (RTy_mono hnew ?_)
            · intro x hx
              rcases List.mem_cons.mp hx with h1 | h2
              · rw [h1]
                exact List.mem_cons_of_mem _ (List.mem_cons_self _ _)
              · rcases List.mem_cons.mp h2 with h3 | h4
                · rw [h3]; exact List.mem_cons_self _ _
                · exact List.mem_cons_of_mem _ (List.mem_cons_of_mem _ h4)
            · exact fun x hx => List.mem_cons_of_mem _ hx
          exact RTy.forAll _ hstep2
        · rw [if_neg hfv] at h
          obtain ⟨⟨b', c1⟩, hb1, h2⟩ := exceptBind_ok_inv h
          injection h2 with h2
          have hfst : Ty.forAll p b' bs0 = B' := congrArg Prod.fst h2
          rw [← hfst]
          refine RTy.forAll p (ih c old new _ b' c1 (p :: stk) hb1
            (RTy_mono hb ?_) (RTy_mono hnew ?_))
          · intro x hx
            rcases List.mem_cons.mp hx with h1 | h2
            · rw [h1]; exact List.mem_cons_of_mem _ (List.mem_cons_self _ _)
            · rcases List.mem_cons.mp h2 with h3 | h4
              · rw [h3]; exact List.mem_cons_self _ _
              · exact List.mem_cons_of_mem _ (List.mem_cons_of_mem _ h4)
          · exact fun x hx => List.mem_cons_of_mem _ hx

/-- Soundness of one resolver pass over types: a successfully resolved type
is resolved relative to the stack, provided every stored alias is closed
and resolved. -/
theorem resolveTyF_resolved :
    ∀ (f : Nat), ∀ (g : List (String × Ty)) (stk : List String) (c : Nat)
      (t t' : Ty) (c' : Nat),
      resolveTyF f g stk c t = .ok (t', c') →
      (∀ q ∈ g, RTy [] q.2) → RTy stk t' := by
  intro f
  induction f with
  | zero =>
    intro g stk c t t' c' h
    exact absurd h (by simp [resolveTyF])
  | succ f ih =>
    intro g stk c t t' c' h hg
    cases t with
    | named n =>
      simp only [resolveTyF] at h
      by_cases hb : isBuiltInType n
      · rw [if_pos hb] at h
        injection h with h
        have hfst : Ty.named n = t' := congrArg Prod.fst h
        rw [← hfst]
        exact RTy.named stk n (Or.inl hb)
      · rw [if_neg hb] at h
        by_cases hs : n ∈ stk
        · rw [if_pos hs] at h
          injection h with h
          have hfst : Ty.named n = t' := congrArg Prod.fst h
          rw [← hfst]
          exact RTy.named stk n (Or.inr hs)
        · rw [if_neg hs] at h
          cases ha : alookup g n with
          | none => rw [ha] at h; exact absurd h (by simp)
          | some t0 =>
            rw [ha] at h
            injection h with h
            have hfst : t0 = t' := congrArg Prod.fst h
            rw [← hfst]
            exact RTy_mono (hg (n, t0) (alookup_some_mem g n t0 ha))
              (fun x hx => by simp at hx)
    | arrow l r =>
      simp only [resolveTyF] at h
      obtain ⟨⟨l', c1⟩, h1, h2⟩ := exceptBind_ok_inv h
      obtain ⟨⟨r', c2⟩, h3, h4⟩ := exceptBind_ok_inv h2
      injection h4 with h4
      have hfst : Ty.arrow l' r' = t' := congrArg Prod.fst h4
      rw [← hfst]
      exact RTy.arrow (ih g stk c l l' c1 h1 hg) (ih g stk c1 r r' c2 h3 hg)
    | appT a b =>
      simp only [resolveTyF] at h
      obtain ⟨⟨fa, c1⟩, h1, h2⟩ := exceptBind_ok_inv h
      obtain ⟨⟨ab, c2⟩, h3, h4⟩ := exceptBind_ok_inv h2
      have hra : RTy stk fa := ih g stk c a fa c1 h1 hg
      have hrb : RTy stk ab := ih g stk c1 b ab c2 h3 hg
      cases fa with
      | forAll p body bs =>
        cases hra with
        | forAll _ hbody =>
          exact substTyF_resolved f c2 p ab body t' c' stk h4 hbody hrb
      | named nn => exact absurd h4 (by simp)
      | arrow x y => exact absurd h4 (by simp)
      | appT x y => exact absurd h4 (by simp)
      | listT x => exact absurd h4 (by simp)
      | record fs => exact absurd h4 (by simp)
      | noneT => exact absurd h4 (by simp)
      | starT => exact absurd h4 (by simp)
    | listT e =>
      simp only [resolveTyF] at h
      obtain ⟨⟨e', c1⟩, h1, h2⟩ := exceptBind_ok_inv h
      injection h2 with h2
      have hfst : Ty.listT e' = t' := congrArg Prod.fst h2
      rw [← hfst]
      exact RTy.listT (ih g stk c e e' c1 h1 hg)
    | record fs =>
      simp only [resolveTyF] at h
      obtain ⟨⟨fs', c1⟩, hm, h2⟩ := exceptBind_ok_inv h
      injection h2 with h2
      have hfst : Ty.record fs' = t' := congrArg Prod.fst h2
      rw [← hfst]
      refine RTy.record ?_
      intro q hq
      obtain ⟨x, hx, s1, s2, hgx⟩ := mapStEx_mem _ _ _ _ hm q hq
      obtain ⟨⟨t0, c2⟩, ht, h4⟩ := exceptBind_ok_inv hgx
      injection h4 with h4
      have hq' : (x.1, t0) = q := congrArg Prod.fst h4
      rw [← hq']
      exact ih g stk s1 x.2 t0 c2 ht hg
    | forAll p b bs =>
      simp only [resolveTyF] at h
      obtain ⟨⟨b', c1⟩, h1, h2⟩ := exceptBind_ok_inv h
      injection h2 with h2
      have hfst : Ty.forAll p b' bs = t' := congrArg Prod.fst h2
      rw [← hfst]
      exact RTy.forAll p (ih g (p :: stk) c b b' c1 h1 hg)
    | noneT => exact absurd h (by simp [resolveTyF])
    | starT => exact absurd h (by simp [resolveTyF])

/-- A stateful traversal whose step fixes every element and the state is
the identity. -/
theorem mapStEx_id_fix {α σ ε : Type} (g : α → σ → Except ε (α × σ)) :
    ∀ (l : List α), (∀ x ∈ l, ∀ s, g x s = .ok (x, s)) →
      ∀ s, mapStEx g l s = .ok (l, s) := by
  intro l
  induction l with
  | nil => intro _ s; rfl
  | cons x r ih =>
    intro hall s
    simp only [mapStEx]
    rw [hall x (by simp) s, exceptOkBind,
      ih (fun y hy => hall y (by simp [hy])) s]
    rfl

/-- A resolved type is a fixed point of the resolver (with the empty alias
table, any counter, and enough fuel); the counter is untouched. -/
theorem resolveTyF_fix :
    ∀ {stk : List String} {t : Ty}, RTy stk t →
      ∀ (f c : Nat), tsizeT t ≤ f → resolveTyF f [] stk c t = .ok (t, c) := by
  intro stk t h
  induction h with
  | named s n hn =>
    intro f c hf
    cases f with
    | zero => simp [tsizeT] at hf
    | succ f' =>
      simp only [resolveTyF]
      by_cases hb : isBuiltInType n
      · rw [if_pos hb]
      · rw [if_neg hb]
        have hs : n ∈ s := by
          rcases hn with h1 | h2
          · exact absurd h1 hb
          · exact h2
        rw [if_pos hs]
  | arrow hl hr ihl ihr =>
    rename_i s l r
    intro f c hf
    cases f with
    | zero => simp [tsizeT] at hf
    | succ f' =>
      have hfl : tsizeT l ≤ f' := by simp only [tsizeT] at hf; omega
      have hfr : tsizeT r ≤ f' := by simp only [tsizeT] at hf; omega
      simp only [resolveTyF]
      rw [ihl f' c hfl, exceptOkBind, ihr f' c hfr]
      rfl
  | listT he ihe =>
    rename_i s e
    intro f c hf
    cases f with
    | zero => simp [tsizeT] at hf
    | succ f' =>
      have hfe : tsizeT e ≤ f' := by simp only [tsizeT] at hf; omega
      simp only [resolveTyF]
      rw [ihe f' c hfe]
      rfl
  | record hfs ih =>
    rename_i s fs
    intro f c hf
    cases f with
    | zero => simp [tsizeT] at hf
    | succ f' =>
      have hffs : tsizeTFs fs ≤ f' := by simp only [tsizeT] at hf; omega
      simp only [resolveTyF]
      rw [mapStEx_id_fix _ fs
        (fun p hp c0 => by
          have hsz : tsizeT p.2 ≤ f' :=
            le_of_lt (lt_of_lt_of_le (tsizeT_mem fs p hp) hffs)
          show (do
            let (t', c') ← resolveTyF f' [] s c0 p.2
            Except.ok ((p.1, t'), c')) = Except.ok (p, c0)
          rw [ih p hp f' c0 hsz, exceptOkBind]) c]
      rfl
  | forAll p hb ihb =>
    rename_i s b bs
    intro f c hf
    cases f with
    | zero => simp [tsizeT] at hf
    | succ f' =>
      have hfb : tsizeT b ≤ f' := by simp only [tsizeT] at hf; omega
      simp only [resolveTyF]
      rw [ihb f' c hfb]
      rfl

/-- An expression is fully resolved relative to the stack of binder names:
every embedded type is resolved (lambda annotations are present and
resolved under the parameter, matching the resolver's push-before-visit
order). -/
inductive REx : List String → Expr → Prop where
  | named (stk : List String) (n : String) : REx stk (.named n)
  | value (stk : List String) (v : Lit) : REx stk (.value v)
  | listE {stk es} : (∀ x ∈ es, REx stk x) → REx stk (.listE es)
  | recordE {stk fs} : (∀ p ∈ fs, REx stk p.2) → REx stk (.recordE fs)
  | lam {stk t body} (p : String) :
      RTy (p :: stk) t → REx (p :: stk) body → REx stk (.lam p (some t) body)
  | tlam {stk body bs} (p : String) :
      REx (p :: stk) body → REx stk (.tlam p body bs)
  | app {stk a b} : REx stk a → REx stk b → REx stk (.app a b)
  | tapp {stk a ta} : REx stk a → RTy stk ta → REx stk (.tapp a ta)
  | annotated {stk a ta} : REx stk a → RTy stk ta → REx stk (.annotated a ta)
  | fieldAccess {stk r} (n : String) : REx stk r → REx stk (.fieldAccess r n)
  | ifE {stk c a b} : REx stk c → REx stk a → REx stk b → REx stk (.ifE c a b)
  | orE {stk a b} : REx stk a → REx stk b → REx stk (.orE a b)
  | andE {stk a b} : REx stk a → REx stk b → REx stk (.andE a b)
  | notE {stk a} : REx stk a → REx stk (.notE a)
  | rel {stk a b} (op : String) : REx stk a → REx stk b → REx stk (.rel a op b)
  | add {stk a b} (op : String) : REx stk a → REx stk b → REx stk (.add a op b)
  | mul {stk a b} (op : String) : REx stk a → REx stk b → REx stk (.mul a op b)
  | neg {stk a} : REx stk a → REx stk (.neg a)

/-- Soundness of one resolver pass over expressions. -/
theorem resolveExprF_resolved :
    ∀ (f : Nat), ∀ (g : List (String × Ty)) (stk : List String) (c : Nat)
      (e e' : Expr) (c' : Nat),
      resolveExprF f g stk c e = .ok (e', c') →
      (∀ q ∈ g, RTy [] q.2) → REx stk e' := by
  intro f
  induction f with
  | zero =>
    intro g stk c e e' c' h
    exact absurd h (by simp [resolveExprF])
  | succ f ih =>
    intro g stk c e e' c' h hg
    cases e with
    | named n =>
      simp only [resolveExprF] at h
      injection h with h
      have hfst : Expr.named n = e' := congrArg Prod.fst h
      rw [← hfst]
      exact REx.named stk n
    | value v =>
      simp only [resolveExprF] at h
      injection h with h
      have hfst : Expr.value v = e' := congrArg Prod.fst h
      rw [← hfst]
      exact REx.value stk v
    | listE es =>
      simp only [resolveExprF] at h
      obtain ⟨⟨es', c1⟩, hm, h2⟩ := exceptBind_ok_inv h
      injection h2 with h2
      have hfst : Expr.listE es' = e' := congrArg Prod.fst h2
      rw [← hfst]
      refine REx.listE ?_
      intro x hx
      obtain ⟨x0, hx0, s1, s2, hgx⟩ := mapStEx_mem _ _ _ _ hm x hx
      exact ih g stk s1 x0 x s2 hgx hg
    | recordE fs =>
      simp only [resolveExprF] at h
      obtain ⟨⟨fs', c1⟩, hm, h2⟩ := exceptBind_ok_inv h
      injection h2 with h2
      have hfst : Expr.recordE fs' = e' := congrArg Prod.fst h2
      rw [← hfst]
      refine REx.recordE ?_
      intro q hq
      obtain ⟨x, hx, s1, s2, hgx⟩ := mapStEx_mem _ _ _ _ hm q hq
      obtain ⟨⟨x', c2⟩, hx2, h4⟩ := exceptBind_ok_inv hgx
      injection h4 with h4
      have hq' : (x.1, x') = q := congrArg Prod.fst h4
      rw [← hq']
      exact ih g stk s1 x.2 x' c2 hx2 hg
    | lam p pt body =>
      simp only [resolveExprF] at h
      cases pt with
      | none => exact absurd h (by simp)
      | some pt0 =>
        obtain ⟨⟨pt', c1⟩, hpt, h2⟩ := exceptBind_ok_inv h
        obtain ⟨⟨body', c2⟩, hb, h3⟩ := exceptBind_ok_inv h2
        injection h3 with h3
        have hfst : Expr.lam p (some pt') body' = e' := congrArg Prod.fst h3
        rw [← hfst]
        exact REx.lam p (resolveTyF_resolved f g (p :: stk) c pt0 pt' c1 hpt hg)
          (ih g (p :: stk) c1 body body' c2 hb hg)
    | tlam p body bs =>
      simp only [resolveExprF] at h
      obtain ⟨⟨body', c1⟩, hb, h2⟩ := exceptBind_ok_inv h
      injection h2 with h2
      have hfst : Expr.tlam p body' bs = e' := congrArg Prod.fst h2
      rw [← hfst]
      exact REx.tlam p (ih g (p :: stk) c body body' c1 hb hg)
    | app a b =>
      simp only [resolveExprF] at h
      obtain ⟨⟨a', c1⟩, ha, h2⟩ := exceptBind_ok_inv h
      obtain ⟨⟨b', c2⟩, hb, h3⟩ := exceptBind_ok_inv h2
      injection h3 with h3
      have hfst : Expr.app a' b' = e' := congrArg Prod.fst h3
      rw [← hfst]
      exact REx.app (ih g stk c a a' c1 ha hg) (ih g stk c1 b b' c2 hb hg)
    | tapp a ta =>
      simp only [resolveExprF] at h
      obtain ⟨⟨a', c1⟩, ha, h2⟩ := exceptBind_ok_inv h
      obtain ⟨⟨ta', c2⟩, hta, h3⟩ := exceptBind_ok_inv h2
      injection h3 with h3
      have hfst : Expr.tapp a' ta' = e' := congrArg Prod.fst h3
      rw [← hfst]
      exact REx.tapp (ih g stk c a a' c1 ha hg)
        (resolveTyF_resolved f g stk c1 ta ta' c2 hta hg)
    | annotated a ta =>
      simp only [resolveExprF] at h
      obtain ⟨⟨a', c1⟩, ha, h2⟩ := exceptBind_ok_inv h
      obtain ⟨⟨ta', c2⟩, hta, h3⟩ := exceptBind_ok_inv h2
      injection h3 with h3
      have hfst : Expr.annotated a' ta' = e' := congrArg Prod.fst h3
      rw [← hfst]
      exact REx.annotated (ih g stk c a a' c1 ha hg)
        (resolveTyF_resolved f g stk c1 ta ta' c2 hta hg)
    | fieldAccess r n =>
      simp only [resolveExprF] at h
      obtain ⟨⟨r', c1⟩, hr, h2⟩ := exceptBind_ok_inv h
      injection h2 with h2
      have hfst : Expr.fieldAccess r' n = e' := congrArg Prod.fst h2
      rw [← hfst]
      exact REx.fieldAccess n (ih g stk c r r' c1 hr hg)
    | ifE c0 a b =>
      simp only [resolveExprF] at h
      obtain ⟨⟨c0', c1⟩, h1, h2⟩ := exceptBind_ok_inv h
      obtain ⟨⟨a', c2⟩, h3, h4⟩ := exceptBind_ok_inv h2
      obtain ⟨⟨b', c3⟩, h5, h6⟩ := exceptBind_ok_inv h4
      injection h6 with h6
      have hfst : Expr.ifE c0' a' b' = e' := congrArg Prod.fst h6
      rw [← hfst]
      exact REx.ifE (ih g stk c c0 c0' c1 h1 hg) (ih g stk c1 a a' c2 h3 hg)
        (ih g stk c2 b b' c3 h5 hg)
    | orE a b =>
      simp only [resolveExprF] at h
      obtain ⟨⟨a', c1⟩, ha, h2⟩ := exceptBind_ok_inv h
      obtain ⟨⟨b', c2⟩, hb, h3⟩ := exceptBind_ok_inv h2
      injection h3 with h3
      have hfst : Expr.orE a' b' = e' := congrArg Prod.fst h3
      rw [← hfst]
      exact REx.orE (ih g stk c a a' c1 ha hg) (ih g stk c1 b b' c2 hb hg)
    | andE a b =>
      simp only [resolveExprF] at h
      obtain ⟨⟨a', c1⟩, ha, h2⟩ := exceptBind_ok_inv h
      obtain ⟨⟨b', c2⟩, hb, h3⟩ := exceptBind_ok_inv h2
      injection h3 with h3
      have hfst : Expr.andE a' b' = e' := congrArg Prod.fst h3
      rw [← hfst]
      exact REx.andE (ih g stk c a a' c1 ha hg) (ih g stk c1 b b' c2 hb hg)
    | notE a =>
      simp only [resolveExprF] at h
      obtain ⟨⟨a', c1⟩, ha, h2⟩ := exceptBind_ok_inv h
      injection h2 with h2
      have hfst : Expr.notE a' = e' := congrArg Prod.fst h2
      rw [← hfst]
      exact REx.notE (ih g stk c a a' c1 ha hg)
    | rel a op b =>
      simp only [resolveExprF] at h
      obtain ⟨⟨a', c1⟩, ha, h2⟩ := exceptBind_ok_inv h
      obtain ⟨⟨b', c2⟩, hb, h3⟩ := exceptBind_ok_inv h2
      injection h3 with h3
      have hfst : Expr.rel a' op b' = e' := congrArg Prod.fst h3
      rw [← hfst]
      exact REx.rel op (ih g stk c a a' c1 ha hg) (ih g stk c1 b b' c2 hb hg)
    | add a op b =>
      simp only [resolveExprF] at h
      obtain ⟨⟨a', c1⟩, ha, h2⟩ := exceptBind_ok_inv h
      obtain ⟨⟨b', c2⟩, hb, h3⟩ := exceptBind_ok_inv h2
      injection h3 with h3
      have hfst : Expr.add a' op b' = e' := congrArg Prod.fst h3
      rw [← hfst]
      exact REx.add op (ih g stk c a a' c1 ha hg) (ih g stk c1 b b' c2 hb hg)
    | mul a op b =>
      simp only [resolveExprF] at h
      obtain ⟨⟨a', c1⟩, ha, h2⟩ := exceptBind_ok_inv h
      obtain ⟨⟨b', c2⟩, hb, h3⟩ := exceptBind_ok_inv h2
      injection h3 with h3
      have hfst : Expr.mul a' op b' = e' := congrArg Prod.fst h3
      rw [← hfst]
      exact REx.mul op (ih g stk c a a' c1 ha hg) (ih g stk c1 b b' c2 hb hg)
    | neg a =>
      simp only [resolveExprF] at h
      obtain ⟨⟨a', c1⟩, ha, h2⟩ := exceptBind_ok_inv h
      injection h2 with h2
      have hfst : Expr.neg a' = e' := congrArg Prod.fst h2
      rw [← hfst]
      exact REx.neg (ih g stk c a a' c1 ha hg)

/-- A resolved expression is a fixed point of the resolver. -/
theorem resolveExprF_fix :
    ∀ {stk : List String} {e : Expr}, REx stk e →
      ∀ (f c : Nat), esizeE e ≤ f → resolveExprF f [] stk c e = .ok (e, c) := by
  intro stk e h
  induction h with
  | named s n =>
    intro f c hf
    cases f with
    | zero => simp [esizeE] at hf
    | succ f' => rfl
  | value s v =>
    intro f c hf
    cases f with
    | zero => simp [esizeE] at hf
    | succ f' => rfl
  | listE hes ih =>
    rename_i s es
    intro f c hf
    cases f with
    | zero => simp [esizeE] at hf
    | succ f' =>
      have hl : esizeEl es ≤ f' := by simp only [esizeE] at hf; omega
      simp only [resolveExprF]
      rw [mapStEx_id_fix _ es
        (fun x hx c0 => ih x hx f' c0
          (le_of_lt (lt_of_lt_of_le (esizeEl_mem es x hx) hl))) c]
      rfl
  | recordE hfs ih =>
    rename_i s fs
    intro f c hf
    cases f with
    | zero => simp [esizeE] at hf
    | succ f' =>
      have hl : esizeEFs fs ≤ f' := by simp only [esizeE] at hf; omega
      simp only [resolveExprF]
      rw [mapStEx_id_fix _ fs
        (fun p hp c0 => by
          have hsz : esizeE p.2 ≤ f' :=
            le_of_lt (lt_of_lt_of_le (esizeEFs_mem fs p hp) hl)
          show (do
            let (x', c') ← resolveExprF f' [] s c0 p.2
            Except.ok ((p.1, x'), c')) = Except.ok (p, c0)
          rw [ih p hp f' c0 hsz, exceptOkBind]) c]
      rfl
  | lam p ht hb ihb =>
    rename_i s t body
    intro f c hf
    cases f with
    | zero => simp [esizeE] at hf
    | succ f' =>
      have h1 : tsizeT t ≤ f' := by simp only [esizeE] at hf; omega
      have h2 : esizeE body ≤ f' := by simp only [esizeE] at hf; omega
      simp only [resolveExprF]
      rw [resolveTyF_fix ht f' c h1, exceptOkBind, ihb f' c h2]
      rfl
  | tlam p hb ihb =>
    rename_i s body bs
    intro f c hf
    cases f with
    | zero => simp [esizeE] at hf
    | succ f' =>
      have h2 : esizeE body ≤ f' := by simp only [esizeE] at hf; omega
      simp only [resolveExprF]
      rw [ihb f' c h2]
      rfl
  | app ha hb iha ihb =>
    rename_i s a b
    intro f c hf
    cases f with
    | zero => simp [esizeE] at hf
    | succ f' =>
      have h1 : esizeE a ≤ f' := by simp only [esizeE] at hf; omega
      have h2 : esizeE b ≤ f' := by simp only [esizeE] at hf; omega
      simp only [resolveExprF]
      rw [iha f' c h1, exceptOkBind, ihb f' c h2]
      rfl
  | tapp ha hta iha =>
    rename_i s a ta
    intro f c hf
    cases f with
    | zero => simp [esizeE] at hf
    | succ f' =>
      have h1 : esizeE a ≤ f' := by simp only [esizeE] at hf; omega
      have h2 : tsizeT ta ≤ f' := by simp only [esizeE] at hf; omega
      simp only [resolveExprF]
      rw [iha f' c h1, exceptOkBind, resolveTyF_fix hta f' c h2]
      rfl
  | annotated ha hta iha =>
    rename_i s a ta
    intro f c hf
    cases f with
    | zero => simp [esizeE] at hf
    | succ f' =>
      have h1 : esizeE a ≤ f' := by simp only [esizeE] at hf; omega
      have h2 : tsizeT ta ≤ f' := by simp only [esizeE] at hf; omega
      simp only [resolveExprF]
      rw [iha f' c h1, exceptOkBind, resolveTyF_fix hta f' c h2]
      rfl
  | fieldAccess n hr ihr =>
    rename_i s r
    intro f c hf
    cases f with
    | zero => simp [esizeE] at hf
    | succ f' =>
      have h1 : esizeE r ≤ f' := by simp only [esizeE] at hf; omega
      simp only [resolveExprF]
      rw [ihr f' c h1]
      rfl
  | ifE hc0 ha hb ihc ihat ihbt =>
    rename_i s c0 a b
    intro f c hf
    cases f with
    | zero => simp [esizeE] at hf
    | succ f' =>
      have h1 : esizeE c0 ≤ f' := by simp only [esizeE] at hf; omega
      have h2 : esizeE a ≤ f' := by simp only [esizeE] at hf; omega
      have h3 : esizeE b ≤ f' := by simp only [esizeE] at hf; omega
      simp only [resolveExprF]
      rw [ihc f' c h1, exceptOkBind, ihat f' c h2, exceptOkBind, ihbt f' c h3]
      rfl
  | orE ha hb iha ihb =>
    rename_i s a b
    intro f c hf
    cases f with
    | zero => simp [esizeE] at hf
    | succ f' =>
      have h1 : esizeE a ≤ f' := by simp only [esizeE] at hf; omega
      have h2 : esizeE b ≤ f' := by simp only [esizeE] at hf; omega
      simp only [resolveExprF]
      rw [iha f' c h1, exceptOkBind, ihb f' c h2]
      rfl
  | andE ha hb iha ihb =>
    rename_i s a b
    intro f c hf
    cases f with
    | zero => simp [esizeE] at hf
    | succ f' =>
      have h1 : esizeE a ≤ f' := by simp only [esizeE] at hf; omega
      have h2 : esizeE b ≤ f' := by simp only [esizeE] at hf; omega
      simp only [resolveExprF]
      rw [iha f' c h1, exceptOkBind, ihb f' c h2]
      rfl
  | notE ha iha =>
    rename_i s a
    intro f c hf
    cases f with
    | zero => simp [esizeE] at hf
    | succ f' =>
      have h1 : esizeE a ≤ f' := by simp only [esizeE] at hf; omega
      simp only [resolveExprF]
      rw [iha f' c h1]
      rfl
  | rel op ha hb iha ihb =>
    rename_i s a b
    intro f c hf
    cases f with
    | zero => simp [esizeE] at hf
    | succ f' =>
      have h1 : esizeE a ≤ f' := by simp only [esizeE] at hf; omega
      have h2 : esizeE b ≤ f' := by simp only [esizeE] at hf; omega
      simp only [resolveExprF]
      rw [iha f' c h1, exceptOkBind, ihb f' c h2]
      rfl
  | add op ha hb iha ihb =>
    rename_i s a b
    intro f c hf
    cases f with
    | zero => simp [esizeE] at hf
    | succ f' =>
      have h1 : esizeE a ≤ f' := by simp only [esizeE] at hf; omega
      have h2 : esizeE b ≤ f' := by simp only [esizeE] at hf; omega
      simp only [resolveExprF]
      rw [iha f' c h1, exceptOkBind, ihb f' c h2]
      rfl
  | mul op ha hb iha ihb =>
    rename_i s a b
    intro f c hf
    cases f with
    | zero => simp [esizeE] at hf
    | succ f' =>
      have h1 : esizeE a ≤ f' := by simp only [esizeE] at hf; omega
      have h2 : esizeE b ≤ f' := by simp only [esizeE] at hf; omega
      simp only [resolveExprF]
      rw [iha f' c h1, exceptOkBind, ihb f' c h2]
      rfl
  | neg ha iha =>
    rename_i s a
    intro f c hf
    cases f with
    | zero => simp [esizeE] at hf
    | succ f' =>
      have h1 : esizeE a ≤ f' := by simp only [esizeE] at hf; omega
      simp only [resolveExprF]
      rw [iha f' c h1]
      rfl

/-- A statement surviving the resolver pass is resolved; `TypeAssignStmt`
never survives (it is consumed into the alias table). -/
def RStmt : Stmt → Prop
  | .assign _ e => REx [] e
  | .typeAssign _ _ => False
  | .exprStmt e => REx [] e
  | .traitFieldEnv _ _ t => RTy [] t
  | .instanceEnv _ tp ie => RTy [] tp ∧ REx [] ie

/-- Soundness of a resolver run: every output statement is resolved. -/
theorem resolveProgAuxF_resolved :
    ∀ (stmts : List Stmt) (f : Nat) (g : List (String × Ty)) (c : Nat)
      (outs : List Stmt) (c' : Nat),
      resolveProgAuxF f g c stmts = .ok (outs, c') →
      (∀ q ∈ g, RTy [] q.2) → ∀ s ∈ outs, RStmt s := by
  intro stmts
  induction stmts with
  | nil =>
    intro f g c outs c' h hg s hs
    simp only [resolveProgAuxF, Except.ok.injEq] at h
    injection h with h1 h2
    rw [← h1] at hs
    simp at hs
  | cons st rest ih =>
    intro f g c outs c' h hg s hs
    simp only [resolveProgAuxF] at h
    obtain ⟨⟨out0, g1, c1⟩, h1, h2⟩ := exceptBind_ok_inv h
    obtain ⟨⟨outs1, c2⟩, h3, h4⟩ := exceptBind_ok_inv h2
    cases st with
    | typeAssign n t =>
      simp only [resolveStmtF] at h1
      obtain ⟨⟨t', ct⟩, ht, h5⟩ := exceptBind_ok_inv h1
      injection h5 with h5
      have hout : (none : Option Stmt) = out0 := congrArg Prod.fst h5
      have hgd : ((n, t') :: g : List (String × Ty)) = g1 := by
        have := congrArg Prod.snd h5
        exact congrArg Prod.fst this
      rw [← hout] at h4
      simp only at h4
      injection h4 with h4
      have houts : outs1 = outs := congrArg Prod.fst h4
      rw [← houts] at hs
      have hg1 : ∀ q ∈ g1, RTy [] q.2 := by
        rw [← hgd]
        intro q hq
        rcases List.mem_cons.mp hq with hh | hh
        · rw [hh]
          exact resolveTyF_resolved f g [] c t t' ct ht hg
        · exact hg q hh
      exact ih f g1 c1 outs1 c2 h3 hg1 s hs
    | assign n e =>
      simp only [resolveStmtF] at h1
      obtain ⟨⟨e', ce⟩, he, h5⟩ := exceptBind_ok_inv h1
      injection h5 with h5
      have hout : (some (Stmt.assign n e') : Option Stmt) = out0 :=
        congrArg Prod.fst h5
      have hgd : g = g1 := by
        have := congrArg Prod.snd h5
        exact congrArg Prod.fst this
      rw [← hout] at h4
      simp only at h4
      injection h4 with h4
      have houts : Stmt.assign n e' :: outs1 = outs := congrArg Prod.fst h4
      rw [← houts] at hs
      rcases List.mem_cons.mp hs with hh | hh
      · rw [hh]
        exact resolveExprF_resolved f g [] c e e' ce he hg
      · exact ih f g1 c1 outs1 c2 h3 (hgd ▸ hg) s hh
    | exprStmt e =>
      simp only [resolveStmtF] at h1
      obtain ⟨⟨e', ce⟩, he, h5⟩ := exceptBind_ok_inv h1
      injection h5 with h5
      have hout : (some (Stmt.exprStmt e') : Option Stmt) = out0 :=
        congrArg Prod.fst h5
      have hgd : g = g1 := by
        have := congrArg Prod.snd h5
        exact congrArg Prod.fst this
      rw [← hout] at h4
      simp only at h4
      injection h4 with h4
      have houts : Stmt.exprStmt e' :: outs1 = outs := congrArg Prod.fst h4
      rw [← houts] at hs
      rcases List.mem_cons.mp hs with hh | hh
      · rw [hh]
        exact resolveExprF_resolved f g [] c e e' ce he hg
      · exact ih f g1 c1 outs1 c2 h3 (hgd ▸ hg) s hh
    | traitFieldEnv fn tn t =>
      simp only [resolveStmtF] at h1
      obtain ⟨⟨t', ct⟩, ht, h5⟩ := exceptBind_ok_inv h1
      injection h5 with h5
      have hout : (some (Stmt.traitFieldEnv fn tn t') : Option Stmt) = out0 :=
        congrArg Prod.fst h5
      have hgd : g = g1 := by
        have := congrArg Prod.snd h5
        exact congrArg Prod.fst this
      rw [← hout] at h4
      simp only at h4
      injection h4 with h4
      have houts : Stmt.traitFieldEnv fn tn t' :: outs1 = outs :=
        congrArg Prod.fst h4
      rw [← houts] at hs
      rcases List.mem_cons.mp hs with hh | hh
      · rw [hh]
        exact resolveTyF_resolved f g [] c t t' ct ht hg
      · exact ih f g1 c1 outs1 c2 h3 (hgd ▸ hg) s hh
    | instanceEnv n tp ie =>
      simp only [resolveStmtF] at h1
      obtain ⟨⟨tp', ct⟩, ht, h5⟩ := exceptBind_ok_inv h1
      obtain ⟨⟨ie', ci⟩, hie, h6⟩ := exceptBind_ok_inv h5
      injection h6 with h6
      have hout : (some (Stmt.instanceEnv n tp' ie') : Option Stmt) = out0 :=
        congrArg Prod.fst h6
      have hgd : g = g1 := by
        have := congrArg Prod.snd h6
        exact congrArg Prod.fst this
      rw [← hout] at h4
      simp only at h4
      injection h4 with h4
      have houts : Stmt.instanceEnv n tp' ie' :: outs1 = outs :=
        congrArg Prod.fst h4
      rw [← houts] at hs
      rcases List.mem_cons.mp hs with hh | hh
      · rw [hh]
        exact ⟨resolveTyF_resolved f g [] c tp tp' ct ht hg,
          resolveExprF_resolved f g [] ct ie ie' ci hie hg⟩
      · exact ih f g1 c1 outs1 c2 h3 (hgd ▸ hg) s hh

/-- A list of resolved statements is a fixed point of the resolver: the
alias table stays empty, every statement maps to itself, the counter is
untouched. -/
theorem resolveProgAuxF_fix :
    ∀ (outs : List Stmt), (∀ s ∈ outs, RStmt s) →
      ∀ (f2 c2 : Nat), psize outs ≤ f2 →
        resolveProgAuxF f2 [] c2 outs = .ok (outs, c2) := by
  intro outs
  induction outs with
  | nil => intro _ f2 c2 _; rfl
  | cons s rest ih =>
    intro hall f2 c2 hf
    have hs : RStmt s := hall s (by simp)
    have hrest : ∀ x ∈ rest, RStmt x := fun x hx => hall x (by simp [hx])
    have hfr : psize rest ≤ f2 := by simp only [psize] at hf; omega
    have hfs : ssizeS s ≤ f2 := by simp only [psize] at hf; omega
    simp only [resolveProgAuxF]
    cases s with
    | typeAssign n t => exact absurd hs (by simp [RStmt])
    | assign n e =>
      have hse : esizeE e ≤ f2 := by simp only [ssizeS] at hfs; omega
      simp only [resolveStmtF]
      rw [resolveExprF_fix hs f2 c2 hse, exceptOkBind, exceptOkBind,
        ih hrest f2 c2 hfr]
      rfl
    | exprStmt e =>
      have hse : esizeE e ≤ f2 := by simp only [ssizeS] at hfs; omega
      simp only [resolveStmtF]
      rw [resolveExprF_fix hs f2 c2 hse, exceptOkBind, exceptOkBind,
        ih hrest f2 c2 hfr]
      rfl
    | traitFieldEnv fn tn t =>
      have hst : tsizeT t ≤ f2 := by simp only [ssizeS] at hfs; omega
      simp only [resolveStmtF]
      rw [resolveTyF_fix hs f2 c2 hst, exceptOkBind, exceptOkBind,
        ih hrest f2 c2 hfr]
      rfl
    | instanceEnv n tp ie =>
      have hst : tsizeT tp ≤ f2 := by simp only [ssizeS] at hfs; omega
      have hse : esizeE ie ≤ f2 := by simp only [ssizeS] at hfs; omega
      simp only [resolveStmtF]
      rw [resolveTyF_fix hs.1 f2 c2 hst, exceptOkBind,
        resolveExprF_fix hs.2 f2 c2 hse, exceptOkBind, exceptOkBind,
        ih hrest f2 c2 hfr]
      rfl

/-- C5: the type resolver is idempotent — a second run of the resolver on
the output of a successful run (fresh visitor state, any counter, enough
fuel for the second traversal) succeeds and returns the same statement
list, leaving the counter untouched. -/
theorem c5_resolver_idempotent :
    ∀ (f c : Nat) (p p1 : List Stmt) (c1 : Nat),
      resolveProgF f c p = .ok (p1, c1) →
      ∀ (f2 : Nat), psize p1 ≤ f2 → ∀ (c2 : Nat),
        resolveProgF f2 c2 p1 = .ok (p1, c2) := by
  intro f c p p1 c1 h f2 hf2 c2
  have hres := resolveProgAuxF_resolved p f [] c p1 c1 h
    (fun q hq => by simp at hq)
  exact resolveProgAuxF_fix p1 hres f2 c2 hf2

/-- C5 witness: resolving a small program with an alias once and then
again. -/
theorem c5_resolver_idempotent_witness :
    resolveProgF
      (psize [Stmt.assign "f" (.lam "x" (some (.named "Int")) (.named "x")),
              Stmt.exprStmt (.value (.intL 1))]) 7
      [Stmt.assign "f" (.lam "x" (some (.named "Int")) (.named "x")),
       Stmt.exprStmt (.value (.intL 1))] =
      .ok ([Stmt.assign "f" (.lam "x" (some (.named "Int")) (.named "x")),
            Stmt.exprStmt (.value (.intL 1))], 7) :=
  c5_resolver_idempotent 50 0
    [Stmt.typeAssign "T" (.named "Int"),
     Stmt.assign "f" (.lam "x" (some (.named "T")) (.named "x")),
     Stmt.exprStmt (.value (.intL 1))]
    [Stmt.assign "f" (.lam "x" (some (.named "Int")) (.named "x")),
     Stmt.exprStmt (.value (.intL 1))] 0 rfl _ (le_refl _) 7
